import Mathlib

/-!
Verification of the R+ compiler and runtime (lexer, parser, bytecode
compiler, register VM) against its specification.  Each subsystem is
shallowly embedded from the C++ sources: pure functions become Lean
functions, the mutable lexer/VM/compiler state becomes explicit state
passing, and C++ exceptions become `Except` results.  Machine integers
are `Nat` with explicit `% 2^64` where overflow matters.
-/

set_option maxHeartbeats 1000000

set_option maxRecDepth 4000

namespace RLex

/-! ### Lexer embedding (src/src/lexer.cpp)

The source text is a `List Char` indexed by `position`, exactly as the
C++ lexer indexes `source[position]`.  Out-of-bounds reads in the model
return the NUL character, matching `peek`'s end-of-input convention; the
code only reads in bounds elsewhere (every read is guarded by
`position < source.length()`). -/

def nulChar : Char := Char.ofNat 0

def quoteChar : Char := Char.ofNat 34

def squoteChar : Char := Char.ofNat 39

def backslashChar : Char := Char.ofNat 92

def lbraceChar : Char := Char.ofNat 123

def rbraceChar : Char := Char.ofNat 125

/-- `std::isspace` on ASCII: space, \t, \n, \v, \f, \r. -/
def isSpaceChar (c : Char) : Bool :=
  c == ' ' || c == '\t' || c == '\n' || c == Char.ofNat 11 || c == Char.ofNat 12 || c == '\r'

/-- `std::isdigit` on ASCII. -/
def isDigitChar (c : Char) : Bool :=
  decide ('0' ≤ c) && decide (c ≤ '9')

/-- `std::isalpha` on ASCII. -/
def isAlphaChar (c : Char) : Bool :=
  (decide ('a' ≤ c) && decide (c ≤ 'z')) || (decide ('A' ≤ c) && decide (c ≤ 'Z'))

/-- `std::isalnum` on ASCII. -/
def isAlnumChar (c : Char) : Bool :=
  isAlphaChar c || isDigitChar c

/-- `std::isxdigit` on ASCII. -/
def isXdigitChar (c : Char) : Bool :=
  isDigitChar c || (decide ('a' ≤ c) && decide (c ≤ 'f')) || (decide ('A' ≤ c) && decide (c ≤ 'F'))

/-- Token kinds of the primary lexer (`TokenType` as used by lexer.cpp). -/
inductive TokenType where
  | NUMBER | FLOAT | STRING | CHAR | IDENTIFIER
  | IF | ELSE | FOR | WHILE | RETURN | FUNCTION | VAR | CONST | CLASS | STRUCT
  | TRUE | FALSE | NULL_TOKEN | VOID | INT | BOOL
  | LEFT_PAREN | RIGHT_PAREN | LEFT_BRACE | RIGHT_BRACE | LEFT_BRACKET | RIGHT_BRACKET
  | COMMA | SEMICOLON | COLON | QUESTION | DOT
  | EQUAL_EQUAL | EQUAL | NOT_EQUAL | NOT | LESS_EQUAL | LEFT_SHIFT | LESS
  | GREATER_EQUAL | RIGHT_SHIFT | GREATER | AND_AND | AND | OR_OR | OR
  | PLUS_PLUS | PLUS_EQUAL | PLUS | MINUS_MINUS | MINUS_EQUAL | ARROW | MINUS
  | STAR_EQUAL | STAR | SLASH_EQUAL | SLASH | PERCENT_EQUAL | PERCENT
  | CARET | TILDE | END_OF_FILE | ERROR
  deriving DecidableEq, Repr

/-- A token: kind, lexeme/decoded value, and 1-based source position. -/
structure Token where
  type : TokenType
  value : List Char
  line : Nat
  column : Nat
  deriving DecidableEq, Repr

/-- The lexer's mutable cursor: `position`, `line`, `column`. -/
structure LexPos where
  pos : Nat
  line : Nat
  column : Nat
  deriving DecidableEq, Repr

/-- `source[p]`, with NUL for out-of-bounds (only reachable via `peek`). -/
def charAt (src : List Char) (p : Nat) : Char :=
  src.getD p nulChar

/-- `Lexer::peek()` (offset 1). -/
def peek (src : List Char) (s : LexPos) : Char :=
  charAt src (s.pos + 1)

/-- `Lexer::advance`. -/
def advance (src : List Char) (s : LexPos) : LexPos :=
  if s.pos < src.length then
    if charAt src s.pos = '\n' then { pos := s.pos + 1, line := s.line + 1, column := 1 }
    else { pos := s.pos + 1, line := s.line, column := s.column + 1 }
  else s

theorem advance_pos_of_lt (src : List Char) (s : LexPos) (h : s.pos < src.length) :
    (advance src s).pos = s.pos + 1 := by
  unfold advance
  rw [if_pos h]
  split <;> rfl

theorem advance_pos_ge (src : List Char) (s : LexPos) : s.pos ≤ (advance src s).pos := by
  unfold advance
  split
  · split <;> simp
  · exact Nat.le_refl _

theorem advance_pos_le (src : List Char) (s : LexPos) (h : s.pos ≤ src.length) :
    (advance src s).pos ≤ src.length := by
  unfold advance
  split
  · next h1 => split <;> simpa using h1
  · exact h

/-- The scan loop of the single-line comment branch: advance until a newline or EOF. -/
def skipLineComment (src : List Char) (s : LexPos) : LexPos :=
  if h : s.pos < src.length ∧ charAt src s.pos ≠ '\n' then
    skipLineComment src (advance src s)
  else s
  termination_by src.length - s.pos
  decreasing_by
    rw [advance_pos_of_lt src s h.1]
    omega

/-- The scan loop of the multi-line comment branch: advance until the closing
delimiter (consuming it) or EOF. -/
def skipBlockComment (src : List Char) (s : LexPos) : LexPos :=
  if h : s.pos < src.length then
    if charAt src s.pos = '*' ∧ peek src s = '/' then advance src (advance src s)
    else skipBlockComment src (advance src s)
  else s
  termination_by src.length - s.pos
  decreasing_by
    rw [advance_pos_of_lt src s h]
    omega

theorem skipLineComment_pos_ge (src : List Char) (s : LexPos) :
    s.pos ≤ (skipLineComment src s).pos := by
  induction s using skipLineComment.induct src with
  | case1 s h ih =>
    rw [skipLineComment, dif_pos h]
    have := advance_pos_ge src s
    omega
  | case2 s h =>
    rw [skipLineComment, dif_neg h]

theorem skipBlockComment_pos_ge (src : List Char) (s : LexPos) :
    s.pos ≤ (skipBlockComment src s).pos := by
  induction s using skipBlockComment.induct src with
  | case1 s h hc =>
    rw [skipBlockComment, dif_pos h, if_pos hc]
    have h1 := advance_pos_ge src s
    have h2 := advance_pos_ge src (advance src s)
    omega
  | case2 s h hc ih =>
    rw [skipBlockComment, dif_pos h, if_neg hc]
    have := advance_pos_ge src s
    omega
  | case3 s h =>
    rw [skipBlockComment, dif_neg h]

/-- The tail of the single-line comment branch: skip the two slashes, the
comment body, and the trailing newline when present. -/
def afterLineComment (src : List Char) (s : LexPos) : LexPos :=
  if (skipLineComment src (advance src (advance src s))).pos < src.length then
    advance src (skipLineComment src (advance src (advance src s)))
  else skipLineComment src (advance src (advance src s))

theorem afterLineComment_pos_gt (src : List Char) (s : LexPos) (h : s.pos < src.length) :
    s.pos < (afterLineComment src s).pos := by
  unfold afterLineComment
  have h1 := advance_pos_of_lt src s h
  have h2 := advance_pos_ge src (advance src s)
  have h3 := skipLineComment_pos_ge src (advance src (advance src s))
  have h4 := advance_pos_ge src (skipLineComment src (advance src (advance src s)))
  split <;> omega

theorem skipBlockComment_pos_gt (src : List Char) (s : LexPos) (h : s.pos < src.length) :
    s.pos < (skipBlockComment src (advance src (advance src s))).pos := by
  have h1 := advance_pos_of_lt src s h
  have h2 := advance_pos_ge src (advance src s)
  have h3 := skipBlockComment_pos_ge src (advance src (advance src s))
  omega

/-- `Lexer::skipWhitespaceAndComments`. -/
def skipWhitespaceAndComments (src : List Char) (s : LexPos) : LexPos :=
  if h : s.pos < src.length then
    if isSpaceChar (charAt src s.pos) then skipWhitespaceAndComments src (advance src s)
    else if charAt src s.pos = '/' ∧ peek src s = '/' then
      skipWhitespaceAndComments src (afterLineComment src s)
    else if charAt src s.pos = '/' ∧ peek src s = '*' then
      skipWhitespaceAndComments src (skipBlockComment src (advance src (advance src s)))
    else s
  else s
  termination_by src.length - s.pos
  decreasing_by
  · rw [advance_pos_of_lt src s h]
    omega
  · have := afterLineComment_pos_gt src s h
    omega
  · have := skipBlockComment_pos_gt src s h
    omega

theorem skipWhitespaceAndComments_pos_ge (src : List Char) (s : LexPos) :
    s.pos ≤ (skipWhitespaceAndComments src s).pos := by
  induction s using skipWhitespaceAndComments.induct src with
  | case1 s h hs ih =>
    rw [skipWhitespaceAndComments, dif_pos h, if_pos hs]
    have := advance_pos_ge src s
    omega
  | case2 s h hs hc ih =>
    rw [skipWhitespaceAndComments, dif_pos h, if_neg hs, if_pos hc]
    have := afterLineComment_pos_gt src s h
    omega
  | case3 s h hs hc hb ih =>
    rw [skipWhitespaceAndComments, dif_pos h, if_neg hs, if_neg hc, if_pos hb]
    have := skipBlockComment_pos_gt src s h
    omega
  | case4 s h hs hc hb =>
    rw [skipWhitespaceAndComments, dif_pos h, if_neg hs, if_neg hc, if_neg hb]
  | case5 s h =>
    rw [skipWhitespaceAndComments, dif_neg h]

/-- The escape table of `Lexer::scanString`. -/
def decodeStringEscape (c : Char) : Char :=
  if c = 'n' then '\n'
  else if c = 't' then '\t'
  else if c = 'r' then '\r'
  else if c = backslashChar then backslashChar
  else if c = quoteChar then quoteChar
  else if c = '0' then nulChar
  else c

/-- The escape table of `Lexer::scanCharacter`. -/
def decodeCharEscape (c : Char) : Char :=
  if c = 'n' then '\n'
  else if c = 't' then '\t'
  else if c = 'r' then '\r'
  else if c = backslashChar then backslashChar
  else if c = squoteChar then squoteChar
  else if c = '0' then nulChar
  else c

/-- The collection loop of `Lexer::scanString` (runs with the cursor after the
opening quote). -/
def scanStringLoop (src : List Char) (s : LexPos) (value : List Char) : List Char × LexPos :=
  if h : s.pos < src.length ∧ charAt src s.pos ≠ quoteChar then
    if charAt src s.pos = backslashChar ∧ peek src s ≠ nulChar then
      scanStringLoop src (advance src (advance src s))
        (value ++ [decodeStringEscape (charAt src (s.pos + 1))])
    else
      scanStringLoop src (advance src s) (value ++ [charAt src s.pos])
  else (value, s)
  termination_by src.length - s.pos
  decreasing_by
  · have h1 := advance_pos_of_lt src s h.1
    have h2 := advance_pos_ge src (advance src s)
    omega
  · rw [advance_pos_of_lt src s h.1]
    omega

theorem scanStringLoop_pos_ge (src : List Char) (s : LexPos) (value : List Char) :
    s.pos ≤ (scanStringLoop src s value).2.pos := by
  induction s, value using scanStringLoop.induct src with
  | case1 s value h he ih =>
    rw [scanStringLoop, dif_pos h, if_pos he]
    have h1 := advance_pos_of_lt src s h.1
    have h2 := advance_pos_ge src (advance src s)
    omega
  | case2 s value h he ih =>
    rw [scanStringLoop, dif_pos h, if_neg he]
    have := advance_pos_ge src s
    omega
  | case3 s value h =>
    rw [scanStringLoop, dif_neg h]

/-- `Lexer::scanString` (cursor at the opening quote; the token keeps the
start position). -/
def scanString (src : List Char) (s : LexPos) : Token × LexPos :=
  match scanStringLoop src (advance src s) [] with
  | (value, s2) =>
    if s2.pos < src.length then (⟨.STRING, value, s.line, s.column⟩, advance src s2)
    else (⟨.STRING, value, s.line, s.column⟩, s2)

/-- The optional single-character body of `Lexer::scanCharacter` (cursor after
the opening quote). -/
def scanCharacterAux (src : List Char) (s : LexPos) : List Char × LexPos :=
  if s.pos < src.length ∧ charAt src s.pos = backslashChar then
    ([decodeCharEscape (charAt src (s.pos + 1))], advance src (advance src s))
  else if s.pos < src.length then
    ([charAt src s.pos], advance src s)
  else ([], s)

/-- The optional closing quote of `Lexer::scanCharacter`. -/
def scanCharacterClose (src : List Char) (s : LexPos) : LexPos :=
  if s.pos < src.length ∧ charAt src s.pos = squoteChar then advance src s else s

/-- `Lexer::scanCharacter`. -/
def scanCharacter (src : List Char) (s : LexPos) : Token × LexPos :=
  match scanCharacterAux src (advance src s) with
  | (value, s2) => (⟨.CHAR, value, s.line, s.column⟩, scanCharacterClose src s2)

/-- The decimal-digit collection loop of `Lexer::scanNumber`. -/
def scanDigits (src : List Char) (s : LexPos) (value : List Char) : List Char × LexPos :=
  if h : s.pos < src.length ∧ isDigitChar (charAt src s.pos) then
    scanDigits src (advance src s) (value ++ [charAt src s.pos])
  else (value, s)
  termination_by src.length - s.pos
  decreasing_by
    rw [advance_pos_of_lt src s h.1]
    omega

/-- The hexadecimal-digit collection loop of `Lexer::scanNumber`. -/
def scanHexDigits (src : List Char) (s : LexPos) (value : List Char) : List Char × LexPos :=
  if h : s.pos < src.length ∧ isXdigitChar (charAt src s.pos) then
    scanHexDigits src (advance src s) (value ++ [charAt src s.pos])
  else (value, s)
  termination_by src.length - s.pos
  decreasing_by
    rw [advance_pos_of_lt src s h.1]
    omega

/-- The optional exponent sign of `Lexer::scanNumber`. -/
def scanExponentSign (src : List Char) (s : LexPos) (value : List Char) : List Char × LexPos :=
  if s.pos < src.length ∧ (charAt src s.pos = '+' ∨ charAt src s.pos = '-') then
    (value ++ [charAt src s.pos], advance src s)
  else (value, s)

/-- The scientific-notation suffix of `Lexer::scanNumber` (cursor at the
accepted exponent letter). -/
def scanExponent (src : List Char) (s : LexPos) (value : List Char) : List Char × LexPos :=
  match scanExponentSign src (advance src s) (value ++ [charAt src s.pos]) with
  | (v, s1) => scanDigits src s1 v

/-- `Lexer::scanNumber`. -/
def scanNumber (src : List Char) (s : LexPos) : Token × LexPos :=
  if charAt src s.pos = '0' ∧ (peek src s = 'x' ∨ peek src s = 'X') then
    match scanHexDigits src (advance src (advance src s))
        [charAt src s.pos, charAt src (s.pos + 1)] with
    | (value, s2) => (⟨.NUMBER, value, s.line, s.column⟩, s2)
  else
    match scanDigits src s [] with
    | (v1, s1) =>
      if s1.pos < src.length ∧ charAt src s1.pos = '.' ∧
          s1.pos + 1 < src.length ∧ isDigitChar (charAt src (s1.pos + 1)) then
        match scanDigits src (advance src s1) (v1 ++ [charAt src s1.pos]) with
        | (v2, s2) =>
          if s2.pos < src.length ∧ (charAt src s2.pos = 'e' ∨ charAt src s2.pos = 'E') then
            match scanExponent src s2 v2 with
            | (v3, s3) => (⟨.FLOAT, v3, s.line, s.column⟩, s3)
          else (⟨.FLOAT, v2, s.line, s.column⟩, s2)
      else (⟨.NUMBER, v1, s.line, s.column⟩, s1)

/-- The identifier collection loop of `Lexer::scanIdentifier`. -/
def scanIdentChars (src : List Char) (s : LexPos) (value : List Char) : List Char × LexPos :=
  if h : s.pos < src.length ∧ (isAlnumChar (charAt src s.pos) ∨ charAt src s.pos = '_') then
    scanIdentChars src (advance src s) (value ++ [charAt src s.pos])
  else (value, s)
  termination_by src.length - s.pos
  decreasing_by
    rw [advance_pos_of_lt src s h.1]
    omega

/-- The fixed keyword map of the lexer (the static `keywords` table). -/
def keywordTable : List (List Char × TokenType) :=
  [("if".toList, .IF), ("else".toList, .ELSE), ("for".toList, .FOR),
   ("while".toList, .WHILE), ("return".toList, .RETURN), ("function".toList, .FUNCTION),
   ("var".toList, .VAR), ("const".toList, .CONST), ("class".toList, .CLASS),
   ("struct".toList, .STRUCT), ("true".toList, .TRUE), ("false".toList, .FALSE),
   ("null".toList, .NULL_TOKEN), ("void".toList, .VOID), ("int".toList, .INT),
   ("float".toList, .FLOAT), ("string".toList, .STRING), ("bool".toList, .BOOL)]

/-- `keywords.find(value)`. -/
def keywordLookup (value : List Char) : Option TokenType :=
  (keywordTable.find? (fun p => value = p.1)).map (fun p => p.2)

/-- `Lexer::scanIdentifier`. -/
def scanIdentifier (src : List Char) (s : LexPos) : Token × LexPos :=
  match scanIdentChars src s [] with
  | (value, s1) =>
    match keywordLookup value with
    | some t => (⟨t, value, s.line, s.column⟩, s1)
    | none => (⟨.IDENTIFIER, value, s.line, s.column⟩, s1)

/-- `Lexer::makeToken`: token at the current position, then one `advance`. -/
def makeToken (src : List Char) (s : LexPos) (ty : TokenType) (value : List Char) :
    Token × LexPos :=
  (⟨ty, value, s.line, s.column⟩, advance src s)

/-- The single-character token cases of `Lexer::nextToken`, in source order:
each `if (current == c) return makeToken(ty, lexeme);` branch becomes one
table entry. -/
def singleCharTable : List (Char × TokenType) :=
  [('(', .LEFT_PAREN), (')', .RIGHT_PAREN),
   (lbraceChar, .LEFT_BRACE), (rbraceChar, .RIGHT_BRACE),
   ('[', .LEFT_BRACKET), (']', .RIGHT_BRACKET),
   (',', .COMMA), (';', .SEMICOLON), (':', .COLON), ('?', .QUESTION), ('.', .DOT)]

def singleCharLookup (c : Char) : Option TokenType :=
  (singleCharTable.find? (fun p => c = p.1)).map (fun p => p.2)

/-- The operator cases of `Lexer::nextToken`, in source order.  Each entry is
`(first char, (two-character continuations in their test order, fallback))`:
e.g. the `'<'` entry captures the branch that tests `peek() == '='` for
`LESS_EQUAL`, then `peek() == '<'` for `LEFT_SHIFT`, and otherwise emits
`LESS`. -/
def opRuleTable : List (Char × (List (Char × TokenType) × TokenType)) :=
  [('=', ([('=', .EQUAL_EQUAL)], .EQUAL)),
   ('!', ([('=', .NOT_EQUAL)], .NOT)),
   ('<', ([('=', .LESS_EQUAL), ('<', .LEFT_SHIFT)], .LESS)),
   ('>', ([('=', .GREATER_EQUAL), ('>', .RIGHT_SHIFT)], .GREATER)),
   ('&', ([('&', .AND_AND)], .AND)),
   ('|', ([('|', .OR_OR)], .OR)),
   ('+', ([('+', .PLUS_PLUS), ('=', .PLUS_EQUAL)], .PLUS)),
   ('-', ([('-', .MINUS_MINUS), ('=', .MINUS_EQUAL), ('>', .ARROW)], .MINUS)),
   ('*', ([('=', .STAR_EQUAL)], .STAR)),
   ('/', ([('=', .SLASH_EQUAL)], .SLASH)),
   ('%', ([('=', .PERCENT_EQUAL)], .PERCENT)),
   ('^', ([], .CARET)),
   ('~', ([], .TILDE))]

def twoCharRule (c : Char) : Option (List (Char × TokenType) × TokenType) :=
  (opRuleTable.find? (fun p => c = p.1)).map (fun p => p.2)

/-- One operator family: if `peek()` matches a continuation, `advance()` and
emit the two-character token through `makeToken`; otherwise emit the
single-character fallback through `makeToken`. -/
def applyOpRule (src : List Char) (s : LexPos) (c : Char)
    (rule : List (Char × TokenType) × TokenType) : Token × LexPos :=
  match rule.1.find? (fun p => peek src s = p.1) with
  | some p => makeToken src (advance src s) p.2 [c, p.1]
  | none => makeToken src s rule.2 [c]

/-- The dispatch of `Lexer::nextToken` after whitespace/comments were skipped. -/
def nextTokenAt (src : List Char) (s : LexPos) : Token × LexPos :=
  if src.length ≤ s.pos then (⟨.END_OF_FILE, [], s.line, s.column⟩, s)
  else match singleCharLookup (charAt src s.pos) with
  | some ty => makeToken src s ty [charAt src s.pos]
  | none => match twoCharRule (charAt src s.pos) with
    | some rule => applyOpRule src s (charAt src s.pos) rule
    | none =>
      if charAt src s.pos = quoteChar then scanString src s
      else if charAt src s.pos = squoteChar then scanCharacter src s
      else if isDigitChar (charAt src s.pos) then scanNumber src s
      else if isAlphaChar (charAt src s.pos) || charAt src s.pos = '_' then scanIdentifier src s
      else (⟨.ERROR, [charAt src s.pos], s.line, s.column⟩, advance src s)

/-- `Lexer::nextToken`. -/
def nextToken (src : List Char) (s : LexPos) : Token × LexPos :=
  nextTokenAt src (skipWhitespaceAndComments src s)

theorem scanDigits_pos_ge (src : List Char) (s : LexPos) (value : List Char) :
    s.pos ≤ (scanDigits src s value).2.pos := by
  induction s, value using scanDigits.induct src with
  | case1 s value h ih =>
    rw [scanDigits, dif_pos h]
    have := advance_pos_ge src s
    omega
  | case2 s value h =>
    rw [scanDigits, dif_neg h]

theorem scanHexDigits_pos_ge (src : List Char) (s : LexPos) (value : List Char) :
    s.pos ≤ (scanHexDigits src s value).2.pos := by
  induction s, value using scanHexDigits.induct src with
  | case1 s value h ih =>
    rw [scanHexDigits, dif_pos h]
    have := advance_pos_ge src s
    omega
  | case2 s value h =>
    rw [scanHexDigits, dif_neg h]

theorem scanIdentChars_pos_ge (src : List Char) (s : LexPos) (value : List Char) :
    s.pos ≤ (scanIdentChars src s value).2.pos := by
  induction s, value using scanIdentChars.induct src with
  | case1 s value h ih =>
    rw [scanIdentChars, dif_pos h]
    have := advance_pos_ge src s
    omega
  | case2 s value h =>
    rw [scanIdentChars, dif_neg h]

theorem scanExponentSign_pos_ge (src : List Char) (s : LexPos) (value : List Char) :
    s.pos ≤ (scanExponentSign src s value).2.pos := by
  unfold scanExponentSign
  split
  · exact advance_pos_ge src s
  · exact Nat.le_refl _

theorem scanExponent_pos_ge (src : List Char) (s : LexPos) (value : List Char) :
    s.pos ≤ (scanExponent src s value).2.pos := by
  unfold scanExponent
  have h1 := advance_pos_ge src s
  have h2 := scanExponentSign_pos_ge src (advance src s) (value ++ [charAt src s.pos])
  split
  next v s1 heq =>
    rw [heq] at h2
    dsimp only at h2
    have h3 := scanDigits_pos_ge src s1 v
    omega

theorem scanCharacterAux_pos_ge (src : List Char) (s : LexPos) :
    s.pos ≤ (scanCharacterAux src s).2.pos := by
  unfold scanCharacterAux
  split
  · have h1 := advance_pos_ge src s
    have h2 := advance_pos_ge src (advance src s)
    dsimp only
    omega
  · split
    · exact advance_pos_ge src s
    · exact Nat.le_refl _

theorem scanCharacterClose_pos_ge (src : List Char) (s : LexPos) :
    s.pos ≤ (scanCharacterClose src s).pos := by
  unfold scanCharacterClose
  split
  · exact advance_pos_ge src s
  · exact Nat.le_refl _

theorem scanString_pos_gt (src : List Char) (s : LexPos) (h : s.pos < src.length) :
    s.pos < (scanString src s).2.pos := by
  unfold scanString
  have h1 := advance_pos_of_lt src s h
  have h2 := scanStringLoop_pos_ge src (advance src s) []
  split
  next value s2 heq =>
    have h3 : (advance src s).pos ≤ s2.pos := by
      rw [heq] at h2
      exact h2
    have h4 := advance_pos_ge src s2
    split <;> (dsimp only; omega)

theorem scanCharacter_pos_gt (src : List Char) (s : LexPos) (h : s.pos < src.length) :
    s.pos < (scanCharacter src s).2.pos := by
  unfold scanCharacter
  have h1 := advance_pos_of_lt src s h
  have h2 := scanCharacterAux_pos_ge src (advance src s)
  split
  next value s2 heq =>
    have h3 : (advance src s).pos ≤ s2.pos := by
      rw [heq] at h2
      exact h2
    have h4 := scanCharacterClose_pos_ge src s2
    dsimp only
    omega

theorem scanNumber_pos_gt (src : List Char) (s : LexPos) (h : s.pos < src.length)
    (hd : isDigitChar (charAt src s.pos)) :
    s.pos < (scanNumber src s).2.pos := by
  unfold scanNumber
  split
  · -- hex branch
    have h1 := advance_pos_of_lt src s h
    have h2 := advance_pos_ge src (advance src s)
    have h3 := scanHexDigits_pos_ge src (advance src (advance src s))
      [charAt src s.pos, charAt src (s.pos + 1)]
    split
    next value s2 heq =>
      rw [heq] at h3
      dsimp only at h3 ⊢
      omega
  · -- decimal branch: the first digit is consumed by the first loop iteration
    have h0 : s.pos < (scanDigits src s []).2.pos := by
      rw [scanDigits, dif_pos ⟨h, hd⟩]
      have h1 := advance_pos_of_lt src s h
      have h2 := scanDigits_pos_ge src (advance src s) ([] ++ [charAt src s.pos])
      omega
    split
    next v1 s1 heq =>
      rw [heq] at h0
      dsimp only at h0
      split
      · split
        next v2 s2 heq2 =>
          have h2 := scanDigits_pos_ge src (advance src s1) (v1 ++ [charAt src s1.pos])
          rw [heq2] at h2
          dsimp only at h2
          have h3 := advance_pos_ge src s1
          split
          · split
            next v3 s3 heq3 =>
              have h4 := scanExponent_pos_ge src s2 v2
              rw [heq3] at h4
              dsimp only at h4 ⊢
              omega
          · dsimp only
            omega
      · dsimp only
        omega

theorem scanIdentifier_pos_gt (src : List Char) (s : LexPos) (h : s.pos < src.length)
    (ha : isAlnumChar (charAt src s.pos) ∨ charAt src s.pos = '_') :
    s.pos < (scanIdentifier src s).2.pos := by
  unfold scanIdentifier
  have h0 : s.pos < (scanIdentChars src s []).2.pos := by
    rw [scanIdentChars, dif_pos ⟨h, ha⟩]
    have h1 := advance_pos_of_lt src s h
    have h2 := scanIdentChars_pos_ge src (advance src s) ([] ++ [charAt src s.pos])
    omega
  split
  next value s1 heq =>
    rw [heq] at h0
    dsimp only at h0
    split <;> exact h0

theorem makeToken_pos_gt (src : List Char) (s : LexPos) (ty : TokenType) (value : List Char)
    (h : s.pos < src.length) :
    s.pos < (makeToken src s ty value).2.pos := by
  unfold makeToken
  dsimp only
  rw [advance_pos_of_lt src s h]
  omega

theorem makeToken_adv_pos_gt (src : List Char) (s : LexPos) (ty : TokenType)
    (value : List Char) (h : s.pos < src.length) :
    s.pos < (makeToken src (advance src s) ty value).2.pos := by
  unfold makeToken
  have h1 := advance_pos_of_lt src s h
  have h2 := advance_pos_ge src (advance src s)
  dsimp only
  omega

theorem applyOpRule_pos_gt (src : List Char) (s : LexPos) (c : Char)
    (rule : List (Char × TokenType) × TokenType) (h : s.pos < src.length) :
    s.pos < (applyOpRule src s c rule).2.pos := by
  unfold applyOpRule
  split
  · exact makeToken_adv_pos_gt src s _ _ h
  · exact makeToken_pos_gt src s _ _ h

theorem nextTokenAt_progress (src : List Char) (s : LexPos) (h : s.pos < src.length) :
    s.pos < (nextTokenAt src s).2.pos := by
  unfold nextTokenAt
  rw [if_neg (by omega)]
  split
  · exact makeToken_pos_gt src s _ _ h
  · split
    · exact applyOpRule_pos_gt src s _ _ h
    · split_ifs with h1 h2 h3 h4
      · exact scanString_pos_gt src s h
      · exact scanCharacter_pos_gt src s h
      · exact scanNumber_pos_gt src s h h3
      · apply scanIdentifier_pos_gt src s h
        simp only [Bool.or_eq_true, decide_eq_true_eq] at h4
        rcases h4 with hb | hb
        · exact Or.inl (by simp [isAlnumChar, hb])
        · exact Or.inr hb
      · dsimp only
        rw [advance_pos_of_lt src s h]
        omega

theorem nextToken_progress (src : List Char) (s : LexPos) :
    (nextToken src s).1.type = .END_OF_FILE ∨
      (s.pos < src.length ∧ s.pos < (nextToken src s).2.pos) := by
  unfold nextToken
  by_cases h : (skipWhitespaceAndComments src s).pos < src.length
  · right
    have h1 := skipWhitespaceAndComments_pos_ge src s
    have h2 := nextTokenAt_progress src (skipWhitespaceAndComments src s) h
    exact ⟨by omega, by omega⟩
  · left
    unfold nextTokenAt
    rw [if_pos (by omega)]

/-- `Lexer::tokenize`'s collection loop: push each token from `nextToken`,
stopping after the `END_OF_FILE` token has been pushed. -/
def tokenizeLoop (src : List Char) (s : LexPos) : List Token :=
  if hne : (nextToken src s).1.type = .END_OF_FILE then [(nextToken src s).1]
  else (nextToken src s).1 :: tokenizeLoop src (nextToken src s).2
  termination_by src.length - s.pos
  decreasing_by
    rcases nextToken_progress src s with hp | hp
    · exact absurd hp hne
    · omega

/-- `Lexer::tokenize`: scan from position 0, line 1, column 1. -/
def tokenize (src : List Char) : List Token :=
  tokenizeLoop src ⟨0, 1, 1⟩

/-- From any start state, the collection loop yields a token list whose last
element exists, is the `END_OF_FILE` token, and is the only `END_OF_FILE`
token in the list. -/
theorem tokenizeLoop_eof_structure (src : List Char) (s : LexPos) :
    ∃ t, (tokenizeLoop src s).getLast? = some t ∧ t.type = .END_OF_FILE ∧
      (tokenizeLoop src s).countP (fun tk => tk.type == .END_OF_FILE) = 1 := by
  induction s using tokenizeLoop.induct src with
  | case1 s hne =>
    rw [tokenizeLoop, dif_pos hne]
    exact ⟨(nextToken src s).1, rfl, hne, by simp [List.countP_cons, hne]⟩
  | case2 s hne ih =>
    rw [tokenizeLoop, dif_neg hne]
    obtain ⟨tl, hlast, htl, hcount⟩ := ih
    have hnil : tokenizeLoop src (nextToken src s).2 ≠ [] := by
      intro hnil
      rw [hnil] at hlast
      simp at hlast
    obtain ⟨r, rs, hrrs⟩ := List.exists_cons_of_ne_nil hnil
    rw [hrrs] at hlast hcount ⊢
    refine ⟨tl, ?_, htl, ?_⟩
    · rw [List.getLast?_cons_cons]
      exact hlast
    · rw [List.countP_cons, hcount]
      simp [hne]

end RLex

namespace RVM

/-! ### Register VM embedding (src/unnamed/part_002, `VM::...`)

Machine words are `Nat` values kept below `2^64` by reducing modulo
`U64` exactly where the C++ `uint64_t` arithmetic wraps.  Register
indices are `Fin 16` (`NUM_REGISTERS = 16`); the handlers index
`registers_` directly with the instruction fields.  C++ exceptions
(`throw std::runtime_error`) become `Except.error` carrying the message;
an error leaves the VM state untouched, exactly as an exception thrown
before any mutation.  The byte stack and the heap are byte maps
`Nat → Nat`; `std::vector` call-stack push/pop at the back is modelled
with list cons at the head (the stack top). -/

def U64 : Nat := 18446744073709551616

def U32 : Nat := 4294967296

/-- `static_cast<int64_t>` on a 64-bit word. -/
def toInt64 (x : Nat) : Int :=
  if x < 9223372036854775808 then (x : Int) else (x : Int) - 18446744073709551616

/-- Register VM opcodes (the cases handled by `VM::execute_instruction`). -/
inductive OpCode where
  | ADD | SUB | MUL | DIV | MOD
  | AND | OR | XOR | SHL | SHR
  | LOAD | STORE | LOADIMM
  | PUSH | POP
  | JMP | JZ | JNZ | JLT | JLE | JGT | JGE | CALL | RET
  | CMP | NOP | HALT
  deriving DecidableEq, Repr

/-- One register VM instruction: opcode, destination and operand register
indices, and an immediate. -/
structure Instruction where
  opcode : OpCode
  dest : Fin 16
  operand1 : Fin 16
  operand2 : Fin 16
  immediate : Nat
  deriving DecidableEq, Repr

/-- The VM's mutable state: register file, program counter, stack pointer,
frame pointer, halt flag, call stack of return addresses, the byte stack and
its size, and the heap and its size. -/
structure VMState where
  registers : Fin 16 → Nat
  pc : Nat
  sp : Nat
  fp : Nat
  halt_flag : Bool
  call_stack : List Nat
  stackMem : Nat → Nat
  stack_size : Nat
  heapMem : Nat → Nat
  heap_size : Nat

/-- `memcpy(dst + addr, &value, n)`: store `n` little-endian bytes of `value`. -/
def writeBytes (mem : Nat → Nat) (addr : Nat) (value : Nat) (n : Nat) : Nat → Nat :=
  fun i => if addr ≤ i ∧ i < addr + n then (value >>> (8 * (i - addr))) % 256 else mem i

/-- `memcpy(&value, src + addr, n)`: read `n` little-endian bytes. -/
def readBytes (mem : Nat → Nat) (addr : Nat) : Nat → Nat
  | 0 => 0
  | n + 1 => mem addr % 256 + 256 * readBytes mem (addr + 1) n

/-- `VM::push`. -/
def VMState.push (s : VMState) (value : Nat) (size : Nat) : Except String VMState :=
  if s.sp + size > s.stack_size then .error "Stack overflow"
  else .ok { s with
    stackMem := writeBytes s.stackMem s.sp value (min size 8),
    sp := s.sp + size }

/-- `VM::pop`. -/
def VMState.pop (s : VMState) (size : Nat) : Except String (Nat × VMState) :=
  if s.sp < size then .error "Stack underflow"
  else .ok (readBytes s.stackMem (s.sp - size) (min size 8), { s with sp := s.sp - size })

/-- `VM::read_memory`. -/
def VMState.read_memory (s : VMState) (addr : Nat) (size : Nat) : Except String Nat :=
  if addr + size > s.heap_size then .error "Memory read out of bounds"
  else .ok (readBytes s.heapMem addr (min size 8))

/-- `VM::write_memory`. -/
def VMState.write_memory (s : VMState) (addr : Nat) (value : Nat) (size : Nat) :
    Except String VMState :=
  if addr + size > s.heap_size then .error "Memory write out of bounds"
  else .ok { s with heapMem := writeBytes s.heapMem addr value (min size 8) }

/-- Write a register (the handlers' direct `registers_[i] = v` assignments;
`v` is already a `uint64_t` value in every handler). -/
def setReg (regs : Fin 16 → Nat) (i : Fin 16) (v : Nat) : Fin 16 → Nat :=
  Function.update regs i v

/-- `a + b` on `uint64_t`. -/
def u64add (a b : Nat) : Nat := (a + b) % U64

/-- `a - b` on `uint64_t` (wraparound). -/
def u64sub (a b : Nat) : Nat := (a + (U64 - b % U64)) % U64

/-- `a * b` on `uint64_t`. -/
def u64mul (a b : Nat) : Nat := (a * b) % U64

/-- `value << shift` on `uint64_t` (the defined range of the C++ shift). -/
def u64shl (a b : Nat) : Nat := (a <<< b) % U64

/-- `value >> shift` on `uint64_t`. -/
def u64shr (a b : Nat) : Nat := a >>> b

def VMState.execute_add (s : VMState) (i : Instruction) : VMState :=
  { s with registers := setReg s.registers i.dest (u64add (s.registers i.operand1) (s.registers i.operand2)) }

def VMState.execute_sub (s : VMState) (i : Instruction) : VMState :=
  { s with registers := setReg s.registers i.dest (u64sub (s.registers i.operand1) (s.registers i.operand2)) }

def VMState.execute_mul (s : VMState) (i : Instruction) : VMState :=
  { s with registers := setReg s.registers i.dest (u64mul (s.registers i.operand1) (s.registers i.operand2)) }

/-- `VM::execute_div`: `b == 0` throws before any write. -/
def VMState.execute_div (s : VMState) (i : Instruction) : Except String VMState :=
  if s.registers i.operand2 = 0 then .error "Division by zero"
  else .ok { s with registers := setReg s.registers i.dest (s.registers i.operand1 / s.registers i.operand2) }

/-- `VM::execute_mod`: `b == 0` throws before any write. -/
def VMState.execute_mod (s : VMState) (i : Instruction) : Except String VMState :=
  if s.registers i.operand2 = 0 then .error "Modulo by zero"
  else .ok { s with registers := setReg s.registers i.dest (s.registers i.operand1 % s.registers i.operand2) }

def VMState.execute_and (s : VMState) (i : Instruction) : VMState :=
  { s with registers := setReg s.registers i.dest (s.registers i.operand1 &&& s.registers i.operand2) }

def VMState.execute_or (s : VMState) (i : Instruction) : VMState :=
  { s with registers := setReg s.registers i.dest (s.registers i.operand1 ||| s.registers i.operand2) }

def VMState.execute_xor (s : VMState) (i : Instruction) : VMState :=
  { s with registers := setReg s.registers i.dest (s.registers i.operand1 ^^^ s.registers i.operand2) }

def VMState.execute_shl (s : VMState) (i : Instruction) : VMState :=
  { s with registers := setReg s.registers i.dest (u64shl (s.registers i.operand1) (s.registers i.operand2)) }

def VMState.execute_shr (s : VMState) (i : Instruction) : VMState :=
  { s with registers := setReg s.registers i.dest (u64shr (s.registers i.operand1) (s.registers i.operand2)) }

/-- `VM::execute_load`: the address register truncated to `uint32_t`. -/
def VMState.execute_load (s : VMState) (i : Instruction) : Except String VMState :=
  match s.read_memory (s.registers i.operand1 % U32) 8 with
  | .error e => .error e
  | .ok v => .ok { s with registers := setReg s.registers i.dest v }

/-- `VM::execute_store`. -/
def VMState.execute_store (s : VMState) (i : Instruction) : Except String VMState :=
  s.write_memory (s.registers i.operand1 % U32) (s.registers i.operand2) 8

/-- `VM::execute_loadimm` (the immediate is a machine word). -/
def VMState.execute_loadimm (s : VMState) (i : Instruction) : VMState :=
  { s with registers := setReg s.registers i.dest (i.immediate % U64) }

/-- `VM::execute_push`. -/
def VMState.execute_push (s : VMState) (i : Instruction) : Except String VMState :=
  s.push (s.registers i.operand1) 8

/-- `VM::execute_pop`. -/
def VMState.execute_pop (s : VMState) (i : Instruction) : Except String VMState :=
  match s.pop 8 with
  | .error e => .error e
  | .ok (v, t) => .ok { t with registers := setReg t.registers i.dest v }

/-- `instr.immediate - 1` in the unsigned arithmetic of the program counter
("-1 because pc_ will be incremented"). -/
def jumpTarget (imm : Nat) : Nat := (imm + (U64 - 1)) % U64

def VMState.execute_jmp (s : VMState) (i : Instruction) : VMState :=
  { s with pc := jumpTarget i.immediate }

def VMState.execute_jz (s : VMState) (i : Instruction) : VMState :=
  if s.registers i.operand1 = 0 then { s with pc := jumpTarget i.immediate } else s

def VMState.execute_jnz (s : VMState) (i : Instruction) : VMState :=
  if s.registers i.operand1 ≠ 0 then { s with pc := jumpTarget i.immediate } else s

def VMState.execute_jlt (s : VMState) (i : Instruction) : VMState :=
  if toInt64 (s.registers i.operand1) < toInt64 (s.registers i.operand2) then
    { s with pc := jumpTarget i.immediate } else s

def VMState.execute_jle (s : VMState) (i : Instruction) : VMState :=
  if toInt64 (s.registers i.operand1) ≤ toInt64 (s.registers i.operand2) then
    { s with pc := jumpTarget i.immediate } else s

def VMState.execute_jgt (s : VMState) (i : Instruction) : VMState :=
  if toInt64 (s.registers i.operand1) > toInt64 (s.registers i.operand2) then
    { s with pc := jumpTarget i.immediate } else s

def VMState.execute_jge (s : VMState) (i : Instruction) : VMState :=
  if toInt64 (s.registers i.operand1) ≥ toInt64 (s.registers i.operand2) then
    { s with pc := jumpTarget i.immediate } else s

/-- `VM::execute_call`: push the current PC, jump to the immediate. -/
def VMState.execute_call (s : VMState) (i : Instruction) : VMState :=
  { s with call_stack := s.pc :: s.call_stack, pc := jumpTarget i.immediate }

/-- `VM::execute_ret`: restore the PC from the call stack. -/
def VMState.execute_ret (s : VMState) (i : Instruction) : Except String VMState :=
  match s.call_stack with
  | [] => .error "Return from empty call stack"
  | r :: rest => .ok { s with pc := r, call_stack := rest }

/-- `VM::execute_cmp`: flags in register 15 (0 equal, 1 less, 2 greater). -/
def VMState.execute_cmp (s : VMState) (i : Instruction) : VMState :=
  if toInt64 (s.registers i.operand1) = toInt64 (s.registers i.operand2) then
    { s with registers := setReg s.registers 15 0 }
  else if toInt64 (s.registers i.operand1) < toInt64 (s.registers i.operand2) then
    { s with registers := setReg s.registers 15 1 }
  else
    { s with registers := setReg s.registers 15 2 }

/-- The opcode switch of `VM::execute_instruction` (before the `pc_++`). -/
def VMState.dispatch (s : VMState) (i : Instruction) : Except String VMState :=
  match i.opcode with
  | .ADD => .ok (s.execute_add i)
  | .SUB => .ok (s.execute_sub i)
  | .MUL => .ok (s.execute_mul i)
  | .DIV => s.execute_div i
  | .MOD => s.execute_mod i
  | .AND => .ok (s.execute_and i)
  | .OR => .ok (s.execute_or i)
  | .XOR => .ok (s.execute_xor i)
  | .SHL => .ok (s.execute_shl i)
  | .SHR => .ok (s.execute_shr i)
  | .LOAD => s.execute_load i
  | .STORE => s.execute_store i
  | .LOADIMM => .ok (s.execute_loadimm i)
  | .PUSH => s.execute_push i
  | .POP => s.execute_pop i
  | .JMP => .ok (s.execute_jmp i)
  | .JZ => .ok (s.execute_jz i)
  | .JNZ => .ok (s.execute_jnz i)
  | .JLT => .ok (s.execute_jlt i)
  | .JLE => .ok (s.execute_jle i)
  | .JGT => .ok (s.execute_jgt i)
  | .JGE => .ok (s.execute_jge i)
  | .CALL => .ok (s.execute_call i)
  | .RET => s.execute_ret i
  | .CMP => .ok (s.execute_cmp i)
  | .NOP => .ok s
  | .HALT => .ok { s with halt_flag := true }

/-- `VM::execute_instruction`: the switch, then `pc_++` (which only runs when
no exception was thrown). -/
def VMState.execute_instruction (s : VMState) (i : Instruction) : Except String VMState :=
  match s.dispatch i with
  | .error e => .error e
  | .ok t => .ok { t with pc := (t.pc + 1) % U64 }

/-- The fetch of the `VM::run` loop: `while (!halt_flag_ && pc_ < size)
execute_instruction(program_[pc_])`. -/
def fetchNext (prog : List Instruction) (s : VMState) : Option Instruction :=
  if s.halt_flag ∨ prog.length ≤ s.pc then none else prog.get? s.pc

end RVM

namespace RVM

theorem jumpTarget_succ (imm : Nat) (h : imm < U64) : (jumpTarget imm + 1) % U64 = imm := by
  unfold jumpTarget U64 at *
  omega

/-- The opcodes whose handlers may assign `pc_` (the jump family, `CALL`,
`RET`). -/
def isControlFlowOp : OpCode → Bool
  | .JMP | .JZ | .JNZ | .JLT | .JLE | .JGT | .JGE | .CALL | .RET => true
  | _ => false

/-- The conditional jumps. -/
def isCondJumpOp : OpCode → Bool
  | .JZ | .JNZ | .JLT | .JLE | .JGT | .JGE => true
  | _ => false

/-- The branch condition of each jump handler (vacuously true for `JMP` and
`CALL`, false for every non-jump opcode). -/
def takesBranch (s : VMState) (i : Instruction) : Prop :=
  match i.opcode with
  | .JMP => True
  | .JZ => s.registers i.operand1 = 0
  | .JNZ => s.registers i.operand1 ≠ 0
  | .JLT => toInt64 (s.registers i.operand1) < toInt64 (s.registers i.operand2)
  | .JLE => toInt64 (s.registers i.operand1) ≤ toInt64 (s.registers i.operand2)
  | .JGT => toInt64 (s.registers i.operand1) > toInt64 (s.registers i.operand2)
  | .JGE => toInt64 (s.registers i.operand1) ≥ toInt64 (s.registers i.operand2)
  | .CALL => True
  | _ => False

end RVM

namespace RVM

theorem execute_cmp_pc (s : VMState) (i : Instruction) : (s.execute_cmp i).pc = s.pc := by
  unfold VMState.execute_cmp
  repeat' split
  all_goals rfl

theorem execute_div_ok_pc (s : VMState) (i : Instruction) (t : VMState)
    (h : s.execute_div i = .ok t) : t.pc = s.pc := by
  unfold VMState.execute_div at h
  split at h
  · exact absurd h (by simp)
  · rw [Except.ok.injEq] at h
    subst h
    rfl

theorem execute_mod_ok_pc (s : VMState) (i : Instruction) (t : VMState)
    (h : s.execute_mod i = .ok t) : t.pc = s.pc := by
  unfold VMState.execute_mod at h
  split at h
  · exact absurd h (by simp)
  · rw [Except.ok.injEq] at h
    subst h
    rfl

theorem execute_load_ok_pc (s : VMState) (i : Instruction) (t : VMState)
    (h : s.execute_load i = .ok t) : t.pc = s.pc := by
  unfold VMState.execute_load at h
  split at h
  · exact absurd h (by simp)
  · rw [Except.ok.injEq] at h
    subst h
    rfl

theorem execute_store_ok_pc (s : VMState) (i : Instruction) (t : VMState)
    (h : s.execute_store i = .ok t) : t.pc = s.pc := by
  unfold VMState.execute_store VMState.write_memory at h
  split at h
  · exact absurd h (by simp)
  · rw [Except.ok.injEq] at h
    subst h
    rfl

theorem execute_push_ok_pc (s : VMState) (i : Instruction) (t : VMState)
    (h : s.execute_push i = .ok t) : t.pc = s.pc := by
  unfold VMState.execute_push VMState.push at h
  split at h
  · exact absurd h (by simp)
  · rw [Except.ok.injEq] at h
    subst h
    rfl

theorem execute_pop_ok_pc (s : VMState) (i : Instruction) (t : VMState)
    (h : s.execute_pop i = .ok t) : t.pc = s.pc := by
  unfold VMState.execute_pop at h
  split at h
  · exact absurd h (by simp)
  · next v t0 heq =>
    rw [Except.ok.injEq] at h
    subst h
    have ht0 : t0.pc = s.pc := by
      unfold VMState.pop at heq
      split at heq
      · exact absurd heq (by simp)
      · rw [Except.ok.injEq, Prod.mk.injEq] at heq
        rw [← heq.2]
    exact ht0

theorem fetchNext_at (prog : List Instruction) (s' : VMState) (n : Nat)
    (hpc : s'.pc = n) (hh : s'.halt_flag = false) (hl : n < prog.length) :
    fetchNext prog s' = prog.get? n := by
  unfold fetchNext
  rw [hpc, hh]
  rw [if_neg (by simp [Nat.not_le.mpr hl])]

theorem execute_jmp_pc (s : VMState) (i : Instruction) :
    (s.execute_jmp i).pc = jumpTarget i.immediate := rfl

theorem execute_call_pc (s : VMState) (i : Instruction) :
    (s.execute_call i).pc = jumpTarget i.immediate := rfl

theorem execute_jz_pc_taken (s : VMState) (i : Instruction)
    (h : s.registers i.operand1 = 0) : (s.execute_jz i).pc = jumpTarget i.immediate := by
  unfold VMState.execute_jz
  rw [if_pos h]

theorem execute_jz_pc_not_taken (s : VMState) (i : Instruction)
    (h : ¬ s.registers i.operand1 = 0) : (s.execute_jz i).pc = s.pc := by
  unfold VMState.execute_jz
  rw [if_neg h]

theorem execute_jnz_pc_taken (s : VMState) (i : Instruction)
    (h : s.registers i.operand1 ≠ 0) : (s.execute_jnz i).pc = jumpTarget i.immediate := by
  unfold VMState.execute_jnz
  rw [if_pos h]

theorem execute_jnz_pc_not_taken (s : VMState) (i : Instruction)
    (h : ¬ s.registers i.operand1 ≠ 0) : (s.execute_jnz i).pc = s.pc := by
  unfold VMState.execute_jnz
  rw [if_neg h]

theorem execute_jlt_pc_taken (s : VMState) (i : Instruction)
    (h : toInt64 (s.registers i.operand1) < toInt64 (s.registers i.operand2)) :
    (s.execute_jlt i).pc = jumpTarget i.immediate := by
  unfold VMState.execute_jlt
  rw [if_pos h]

theorem execute_jlt_pc_not_taken (s : VMState) (i : Instruction)
    (h : ¬ toInt64 (s.registers i.operand1) < toInt64 (s.registers i.operand2)) :
    (s.execute_jlt i).pc = s.pc := by
  unfold VMState.execute_jlt
  rw [if_neg h]

theorem execute_jle_pc_taken (s : VMState) (i : Instruction)
    (h : toInt64 (s.registers i.operand1) ≤ toInt64 (s.registers i.operand2)) :
    (s.execute_jle i).pc = jumpTarget i.immediate := by
  unfold VMState.execute_jle
  rw [if_pos h]

theorem execute_jle_pc_not_taken (s : VMState) (i : Instruction)
    (h : ¬ toInt64 (s.registers i.operand1) ≤ toInt64 (s.registers i.operand2)) :
    (s.execute_jle i).pc = s.pc := by
  unfold VMState.execute_jle
  rw [if_neg h]

theorem execute_jgt_pc_taken (s : VMState) (i : Instruction)
    (h : toInt64 (s.registers i.operand1) > toInt64 (s.registers i.operand2)) :
    (s.execute_jgt i).pc = jumpTarget i.immediate := by
  unfold VMState.execute_jgt
  rw [if_pos h]

theorem execute_jgt_pc_not_taken (s : VMState) (i : Instruction)
    (h : ¬ toInt64 (s.registers i.operand1) > toInt64 (s.registers i.operand2)) :
    (s.execute_jgt i).pc = s.pc := by
  unfold VMState.execute_jgt
  rw [if_neg h]

theorem execute_jge_pc_taken (s : VMState) (i : Instruction)
    (h : toInt64 (s.registers i.operand1) ≥ toInt64 (s.registers i.operand2)) :
    (s.execute_jge i).pc = jumpTarget i.immediate := by
  unfold VMState.execute_jge
  rw [if_pos h]

theorem execute_jge_pc_not_taken (s : VMState) (i : Instruction)
    (h : ¬ toInt64 (s.registers i.operand1) ≥ toInt64 (s.registers i.operand2)) :
    (s.execute_jge i).pc = s.pc := by
  unfold VMState.execute_jge
  rw [if_neg h]

theorem execute_instruction_ok_fields (s : VMState) (i : Instruction) (s' t : VMState)
    (hd : s.dispatch i = .ok t) (h : s.execute_instruction i = .ok s') :
    s'.pc = (t.pc + 1) % U64 ∧ s'.halt_flag = t.halt_flag ∧
      s'.call_stack = t.call_stack ∧ s'.registers = t.registers ∧ s'.sp = t.sp := by
  unfold VMState.execute_instruction at h
  rw [hd] at h
  rw [Except.ok.injEq] at h
  subst h
  exact ⟨rfl, rfl, rfl, rfl, rfl⟩

end RVM

open RVM in
/-- C2: in the register VM, `pc_++` runs after every successful dispatch, so a
non-control-flow instruction moves the PC to `pc + 1`; a conditional jump whose
condition is false also moves it to `pc + 1`; and every taken jump (`JMP`,
`JZ`, `JNZ`, `JLT`, `JLE`, `JGT`, `JGE`, `CALL`) sets `pc_ = immediate - 1` in
the handler, so after the increment the PC equals the immediate `T`, and the
run loop's next fetch is the instruction at index `T`. -/
theorem claim_C2_taken_jump_lands_at_immediate (s : VMState) (i : Instruction) (s' : VMState)
    (hexec : s.execute_instruction i = .ok s') :
    (isControlFlowOp i.opcode = false → s'.pc = (s.pc + 1) % U64) ∧
    (isCondJumpOp i.opcode = true → ¬ takesBranch s i → s'.pc = (s.pc + 1) % U64) ∧
    (takesBranch s i → i.immediate < U64 →
      s'.pc = i.immediate ∧
      ∀ prog : List Instruction, s'.halt_flag = false → i.immediate < prog.length →
        fetchNext prog s' = prog.get? i.immediate) := by
  rcases i with ⟨op, d, o1, o2, imm⟩
  cases op
  case ADD =>
    have hf := execute_instruction_ok_fields s ⟨.ADD, d, o1, o2, imm⟩ s'
      (s.execute_add ⟨.ADD, d, o1, o2, imm⟩) rfl hexec
    exact ⟨fun _ => hf.1, fun hc => by simp [isCondJumpOp] at hc,
      fun hb => absurd hb (by simp [takesBranch])⟩
  case SUB =>
    have hf := execute_instruction_ok_fields s ⟨.SUB, d, o1, o2, imm⟩ s'
      (s.execute_sub ⟨.SUB, d, o1, o2, imm⟩) rfl hexec
    exact ⟨fun _ => hf.1, fun hc => by simp [isCondJumpOp] at hc,
      fun hb => absurd hb (by simp [takesBranch])⟩
  case MUL =>
    have hf := execute_instruction_ok_fields s ⟨.MUL, d, o1, o2, imm⟩ s'
      (s.execute_mul ⟨.MUL, d, o1, o2, imm⟩) rfl hexec
    exact ⟨fun _ => hf.1, fun hc => by simp [isCondJumpOp] at hc,
      fun hb => absurd hb (by simp [takesBranch])⟩
  case AND =>
    have hf := execute_instruction_ok_fields s ⟨.AND, d, o1, o2, imm⟩ s'
      (s.execute_and ⟨.AND, d, o1, o2, imm⟩) rfl hexec
    exact ⟨fun _ => hf.1, fun hc => by simp [isCondJumpOp] at hc,
      fun hb => absurd hb (by simp [takesBranch])⟩
  case OR =>
    have hf := execute_instruction_ok_fields s ⟨.OR, d, o1, o2, imm⟩ s'
      (s.execute_or ⟨.OR, d, o1, o2, imm⟩) rfl hexec
    exact ⟨fun _ => hf.1, fun hc => by simp [isCondJumpOp] at hc,
      fun hb => absurd hb (by simp [takesBranch])⟩
  case XOR =>
    have hf := execute_instruction_ok_fields s ⟨.XOR, d, o1, o2, imm⟩ s'
      (s.execute_xor ⟨.XOR, d, o1, o2, imm⟩) rfl hexec
    exact ⟨fun _ => hf.1, fun hc => by simp [isCondJumpOp] at hc,
      fun hb => absurd hb (by simp [takesBranch])⟩
  case SHL =>
    have hf := execute_instruction_ok_fields s ⟨.SHL, d, o1, o2, imm⟩ s'
      (s.execute_shl ⟨.SHL, d, o1, o2, imm⟩) rfl hexec
    exact ⟨fun _ => hf.1, fun hc => by simp [isCondJumpOp] at hc,
      fun hb => absurd hb (by simp [takesBranch])⟩
  case SHR =>
    have hf := execute_instruction_ok_fields s ⟨.SHR, d, o1, o2, imm⟩ s'
      (s.execute_shr ⟨.SHR, d, o1, o2, imm⟩) rfl hexec
    exact ⟨fun _ => hf.1, fun hc => by simp [isCondJumpOp] at hc,
      fun hb => absurd hb (by simp [takesBranch])⟩
  case LOADIMM =>
    have hf := execute_instruction_ok_fields s ⟨.LOADIMM, d, o1, o2, imm⟩ s'
      (s.execute_loadimm ⟨.LOADIMM, d, o1, o2, imm⟩) rfl hexec
    exact ⟨fun _ => hf.1, fun hc => by simp [isCondJumpOp] at hc,
      fun hb => absurd hb (by simp [takesBranch])⟩
  case NOP =>
    have hf := execute_instruction_ok_fields s ⟨.NOP, d, o1, o2, imm⟩ s' s rfl hexec
    exact ⟨fun _ => hf.1, fun hc => by simp [isCondJumpOp] at hc,
      fun hb => absurd hb (by simp [takesBranch])⟩
  case HALT =>
    have hf := execute_instruction_ok_fields s ⟨.HALT, d, o1, o2, imm⟩ s'
      { s with halt_flag := true } rfl hexec
    exact ⟨fun _ => hf.1, fun hc => by simp [isCondJumpOp] at hc,
      fun hb => absurd hb (by simp [takesBranch])⟩
  case CMP =>
    have hf := execute_instruction_ok_fields s ⟨.CMP, d, o1, o2, imm⟩ s'
      (s.execute_cmp ⟨.CMP, d, o1, o2, imm⟩) rfl hexec
    have h1 := hf.1
    rw [execute_cmp_pc] at h1
    exact ⟨fun _ => h1, fun hc => by simp [isCondJumpOp] at hc,
      fun hb => absurd hb (by simp [takesBranch])⟩
  case DIV =>
    simp only [VMState.execute_instruction, VMState.dispatch] at hexec
    split at hexec
    · exact absurd hexec (by simp)
    · next t heq =>
      rw [Except.ok.injEq] at hexec
      subst hexec
      have hpc := execute_div_ok_pc s _ t heq
      refine ⟨fun _ => ?_, fun hc => by simp [isCondJumpOp] at hc,
        fun hb => absurd hb (by simp [takesBranch])⟩
      dsimp only
      rw [hpc]
  case MOD =>
    simp only [VMState.execute_instruction, VMState.dispatch] at hexec
    split at hexec
    · exact absurd hexec (by simp)
    · next t heq =>
      rw [Except.ok.injEq] at hexec
      subst hexec
      have hpc := execute_mod_ok_pc s _ t heq
      refine ⟨fun _ => ?_, fun hc => by simp [isCondJumpOp] at hc,
        fun hb => absurd hb (by simp [takesBranch])⟩
      dsimp only
      rw [hpc]
  case LOAD =>
    simp only [VMState.execute_instruction, VMState.dispatch] at hexec
    split at hexec
    · exact absurd hexec (by simp)
    · next t heq =>
      rw [Except.ok.injEq] at hexec
      subst hexec
      have hpc := execute_load_ok_pc s _ t heq
      refine ⟨fun _ => ?_, fun hc => by simp [isCondJumpOp] at hc,
        fun hb => absurd hb (by simp [takesBranch])⟩
      dsimp only
      rw [hpc]
  case STORE =>
    simp only [VMState.execute_instruction, VMState.dispatch] at hexec
    split at hexec
    · exact absurd hexec (by simp)
    · next t heq =>
      rw [Except.ok.injEq] at hexec
      subst hexec
      have hpc := execute_store_ok_pc s _ t heq
      refine ⟨fun _ => ?_, fun hc => by simp [isCondJumpOp] at hc,
        fun hb => absurd hb (by simp [takesBranch])⟩
      dsimp only
      rw [hpc]
  case PUSH =>
    simp only [VMState.execute_instruction, VMState.dispatch] at hexec
    split at hexec
    · exact absurd hexec (by simp)
    · next t heq =>
      rw [Except.ok.injEq] at hexec
      subst hexec
      have hpc := execute_push_ok_pc s _ t heq
      refine ⟨fun _ => ?_, fun hc => by simp [isCondJumpOp] at hc,
        fun hb => absurd hb (by simp [takesBranch])⟩
      dsimp only
      rw [hpc]
  case POP =>
    simp only [VMState.execute_instruction, VMState.dispatch] at hexec
    split at hexec
    · exact absurd hexec (by simp)
    · next t heq =>
      rw [Except.ok.injEq] at hexec
      subst hexec
      have hpc := execute_pop_ok_pc s _ t heq
      refine ⟨fun _ => ?_, fun hc => by simp [isCondJumpOp] at hc,
        fun hb => absurd hb (by simp [takesBranch])⟩
      dsimp only
      rw [hpc]
  case JMP =>
    have hf := execute_instruction_ok_fields s ⟨.JMP, d, o1, o2, imm⟩ s'
      (s.execute_jmp ⟨.JMP, d, o1, o2, imm⟩) rfl hexec
    have hpc := hf.1
    rw [execute_jmp_pc] at hpc
    refine ⟨fun hcf => by simp [isControlFlowOp] at hcf,
      fun hc => by simp [isCondJumpOp] at hc, fun hb himm => ?_⟩
    have hpc2 : s'.pc = imm := by
      rw [hpc]
      exact jumpTarget_succ imm himm
    exact ⟨hpc2, fun prog hh hl => fetchNext_at prog _ imm hpc2 hh hl⟩
  case CALL =>
    have hf := execute_instruction_ok_fields s ⟨.CALL, d, o1, o2, imm⟩ s'
      (s.execute_call ⟨.CALL, d, o1, o2, imm⟩) rfl hexec
    have hpc := hf.1
    rw [execute_call_pc] at hpc
    refine ⟨fun hcf => by simp [isControlFlowOp] at hcf,
      fun hc => by simp [isCondJumpOp] at hc, fun hb himm => ?_⟩
    have hpc2 : s'.pc = imm := by
      rw [hpc]
      exact jumpTarget_succ imm himm
    exact ⟨hpc2, fun prog hh hl => fetchNext_at prog _ imm hpc2 hh hl⟩
  case JZ =>
    have hf := execute_instruction_ok_fields s ⟨.JZ, d, o1, o2, imm⟩ s'
      (s.execute_jz ⟨.JZ, d, o1, o2, imm⟩) rfl hexec
    have hpc := hf.1
    refine ⟨fun hcf => by simp [isControlFlowOp] at hcf, fun _ hnb => ?_, fun hb himm => ?_⟩
    · simp only [takesBranch] at hnb
      rw [execute_jz_pc_not_taken _ _ hnb] at hpc
      exact hpc
    · simp only [takesBranch] at hb
      rw [execute_jz_pc_taken _ _ hb] at hpc
      have hpc2 : s'.pc = imm := by
        rw [hpc]
        exact jumpTarget_succ imm himm
      exact ⟨hpc2, fun prog hh hl => fetchNext_at prog _ imm hpc2 hh hl⟩
  case JNZ =>
    have hf := execute_instruction_ok_fields s ⟨.JNZ, d, o1, o2, imm⟩ s'
      (s.execute_jnz ⟨.JNZ, d, o1, o2, imm⟩) rfl hexec
    have hpc := hf.1
    refine ⟨fun hcf => by simp [isControlFlowOp] at hcf, fun _ hnb => ?_, fun hb himm => ?_⟩
    · simp only [takesBranch] at hnb
      rw [execute_jnz_pc_not_taken _ _ hnb] at hpc
      exact hpc
    · simp only [takesBranch] at hb
      rw [execute_jnz_pc_taken _ _ hb] at hpc
      have hpc2 : s'.pc = imm := by
        rw [hpc]
        exact jumpTarget_succ imm himm
      exact ⟨hpc2, fun prog hh hl => fetchNext_at prog _ imm hpc2 hh hl⟩
  case JLT =>
    have hf := execute_instruction_ok_fields s ⟨.JLT, d, o1, o2, imm⟩ s'
      (s.execute_jlt ⟨.JLT, d, o1, o2, imm⟩) rfl hexec
    have hpc := hf.1
    refine ⟨fun hcf => by simp [isControlFlowOp] at hcf, fun _ hnb => ?_, fun hb himm => ?_⟩
    · simp only [takesBranch] at hnb
      rw [execute_jlt_pc_not_taken _ _ hnb] at hpc
      exact hpc
    · simp only [takesBranch] at hb
      rw [execute_jlt_pc_taken _ _ hb] at hpc
      have hpc2 : s'.pc = imm := by
        rw [hpc]
        exact jumpTarget_succ imm himm
      exact ⟨hpc2, fun prog hh hl => fetchNext_at prog _ imm hpc2 hh hl⟩
  case JLE =>
    have hf := execute_instruction_ok_fields s ⟨.JLE, d, o1, o2, imm⟩ s'
      (s.execute_jle ⟨.JLE, d, o1, o2, imm⟩) rfl hexec
    have hpc := hf.1
    refine ⟨fun hcf => by simp [isControlFlowOp] at hcf, fun _ hnb => ?_, fun hb himm => ?_⟩
    · simp only [takesBranch] at hnb
      rw [execute_jle_pc_not_taken _ _ hnb] at hpc
      exact hpc
    · simp only [takesBranch] at hb
      rw [execute_jle_pc_taken _ _ hb] at hpc
      have hpc2 : s'.pc = imm := by
        rw [hpc]
        exact jumpTarget_succ imm himm
      exact ⟨hpc2, fun prog hh hl => fetchNext_at prog _ imm hpc2 hh hl⟩
  case JGT =>
    have hf := execute_instruction_ok_fields s ⟨.JGT, d, o1, o2, imm⟩ s'
      (s.execute_jgt ⟨.JGT, d, o1, o2, imm⟩) rfl hexec
    have hpc := hf.1
    refine ⟨fun hcf => by simp [isControlFlowOp] at hcf, fun _ hnb => ?_, fun hb himm => ?_⟩
    · simp only [takesBranch] at hnb
      rw [execute_jgt_pc_not_taken _ _ hnb] at hpc
      exact hpc
    · simp only [takesBranch] at hb
      rw [execute_jgt_pc_taken _ _ hb] at hpc
      have hpc2 : s'.pc = imm := by
        rw [hpc]
        exact jumpTarget_succ imm himm
      exact ⟨hpc2, fun prog hh hl => fetchNext_at prog _ imm hpc2 hh hl⟩
  case JGE =>
    have hf := execute_instruction_ok_fields s ⟨.JGE, d, o1, o2, imm⟩ s'
      (s.execute_jge ⟨.JGE, d, o1, o2, imm⟩) rfl hexec
    have hpc := hf.1
    refine ⟨fun hcf => by simp [isControlFlowOp] at hcf, fun _ hnb => ?_, fun hb himm => ?_⟩
    · simp only [takesBranch] at hnb
      rw [execute_jge_pc_not_taken _ _ hnb] at hpc
      exact hpc
    · simp only [takesBranch] at hb
      rw [execute_jge_pc_taken _ _ hb] at hpc
      have hpc2 : s'.pc = imm := by
        rw [hpc]
        exact jumpTarget_succ imm himm
      exact ⟨hpc2, fun prog hh hl => fetchNext_at prog _ imm hpc2 hh hl⟩
  case RET =>
    exact ⟨fun hcf => by simp [isControlFlowOp] at hcf,
      fun hc => by simp [isCondJumpOp] at hc, fun hb => absurd hb (by simp [takesBranch])⟩


open RVM in
/-- C3: in the register VM, `CALL` pushes the current `pc_` onto the call
stack and jumps to its immediate target; `RET` pops the saved address and,
after the post-dispatch increment, execution resumes at the instruction
immediately following the `CALL`; `RET` on an empty call stack raises
"Return from empty call stack", and that is the only way `RET` fails.  (The
`Except` embedding returns the error without a successor state, matching a
C++ exception thrown before any mutation.) -/
theorem claim_C3_call_pushes_ret_pops (s : VMState) (i : Instruction) :
    (i.opcode = .CALL → i.immediate < U64 →
      s.execute_instruction i =
        .ok { s with call_stack := s.pc :: s.call_stack, pc := i.immediate }) ∧
    (i.opcode = .RET → s.call_stack = [] →
      s.execute_instruction i = .error "Return from empty call stack") ∧
    (i.opcode = .RET → ∀ e, s.execute_instruction i = .error e →
      s.call_stack = [] ∧ e = "Return from empty call stack") ∧
    (i.opcode = .RET → ∀ r rest, s.call_stack = r :: rest → r + 1 < U64 →
      s.execute_instruction i = .ok { s with pc := r + 1, call_stack := rest }) ∧
    (∀ (j : Instruction) (s₁ s₂ s₂' : VMState), i.opcode = .CALL → j.opcode = .RET →
      s.execute_instruction i = .ok s₁ → s₂.call_stack = s₁.call_stack →
      s.pc + 1 < U64 → s₂.execute_instruction j = .ok s₂' →
      s₂'.pc = s.pc + 1) := by
  rcases i with ⟨op, d, o1, o2, imm⟩
  refine ⟨?_, ?_, ?_, ?_, ?_⟩
  · intro hop himm
    dsimp only at hop
    subst hop
    have h1 : s.dispatch ⟨.CALL, d, o1, o2, imm⟩ =
        .ok (s.execute_call ⟨.CALL, d, o1, o2, imm⟩) := rfl
    unfold VMState.execute_instruction
    rw [h1]
    dsimp only
    rw [execute_call_pc]
    rw [show (⟨.CALL, d, o1, o2, imm⟩ : Instruction).immediate = imm from rfl]
    rw [jumpTarget_succ imm himm]
    unfold VMState.execute_call
    rfl
  · intro hop hcs
    dsimp only at hop
    subst hop
    unfold VMState.execute_instruction VMState.dispatch VMState.execute_ret
    rw [hcs]
  · intro hop e hexec
    dsimp only at hop
    subst hop
    unfold VMState.execute_instruction VMState.dispatch VMState.execute_ret at hexec
    rcases hcs : s.call_stack with _ | ⟨r, rest⟩
    · rw [hcs] at hexec
      dsimp only at hexec
      rw [Except.error.injEq] at hexec
      exact ⟨rfl, hexec.symm⟩
    · rw [hcs] at hexec
      dsimp only at hexec
      exact absurd hexec (by simp)
  · intro hop r rest hcs hr1
    dsimp only at hop
    subst hop
    unfold VMState.execute_instruction VMState.dispatch VMState.execute_ret
    rw [hcs]
    dsimp only
    rw [Nat.mod_eq_of_lt hr1]
  · intro j s₁ s₂ s₂' hopi hopj hexec1 hcs2 hlt hexec2
    dsimp only at hopi
    subst hopi
    have hf1 := execute_instruction_ok_fields s ⟨.CALL, d, o1, o2, imm⟩ s₁
      (s.execute_call ⟨.CALL, d, o1, o2, imm⟩) rfl hexec1
    have hcs1 : s₁.call_stack = s.pc :: s.call_stack := hf1.2.2.1
    rcases j with ⟨opj, dj, oj1, oj2, immj⟩
    dsimp only at hopj
    subst hopj
    unfold VMState.execute_instruction VMState.dispatch VMState.execute_ret at hexec2
    rw [hcs2, hcs1] at hexec2
    dsimp only at hexec2
    rw [Except.ok.injEq] at hexec2
    subst hexec2
    dsimp only
    exact Nat.mod_eq_of_lt hlt

open RVM in
/-- C4: in the register VM, `DIV` raises "Division by zero" exactly when the
second operand register holds 0, and `MOD` raises "Modulo by zero" exactly
when the second operand register holds 0; on error no register is modified
(the `Except` embedding returns no successor state, matching the C++ throw
before any write); otherwise the destination register receives the unsigned
64-bit quotient/remainder and every other register is unchanged. -/
theorem claim_C4_div_mod_by_zero (s : VMState) (i : Instruction) :
    (i.opcode = .DIV →
      ((s.execute_instruction i = .error "Division by zero") ↔ s.registers i.operand2 = 0) ∧
      (∀ s', s.execute_instruction i = .ok s' →
        s'.registers i.dest = s.registers i.operand1 / s.registers i.operand2 ∧
        (∀ r, r ≠ i.dest → s'.registers r = s.registers r))) ∧
    (i.opcode = .MOD →
      ((s.execute_instruction i = .error "Modulo by zero") ↔ s.registers i.operand2 = 0) ∧
      (∀ s', s.execute_instruction i = .ok s' →
        s'.registers i.dest = s.registers i.operand1 % s.registers i.operand2 ∧
        (∀ r, r ≠ i.dest → s'.registers r = s.registers r))) := by
  rcases i with ⟨op, d, o1, o2, imm⟩
  constructor
  · intro hop
    dsimp only at hop
    subst hop
    have h1 : s.dispatch ⟨.DIV, d, o1, o2, imm⟩ = s.execute_div ⟨.DIV, d, o1, o2, imm⟩ := rfl
    constructor
    · unfold VMState.execute_instruction
      rw [h1]
      unfold VMState.execute_div
      dsimp only
      by_cases hb : s.registers o2 = 0
      · rw [if_pos hb]
        simp [hb]
      · rw [if_neg hb]
        simp [hb]
    · intro s' hexec
      unfold VMState.execute_instruction at hexec
      rw [h1] at hexec
      unfold VMState.execute_div at hexec
      dsimp only at hexec
      by_cases hb : s.registers o2 = 0
      · rw [if_pos hb] at hexec
        exact absurd hexec (by simp)
      · rw [if_neg hb] at hexec
        dsimp only at hexec
        rw [Except.ok.injEq] at hexec
        subst hexec
        constructor
        · dsimp only
          unfold setReg
          rw [Function.update_same]
        · intro r hr
          dsimp only
          unfold setReg
          rw [Function.update_noteq hr]
  · intro hop
    dsimp only at hop
    subst hop
    have h1 : s.dispatch ⟨.MOD, d, o1, o2, imm⟩ = s.execute_mod ⟨.MOD, d, o1, o2, imm⟩ := rfl
    constructor
    · unfold VMState.execute_instruction
      rw [h1]
      unfold VMState.execute_mod
      dsimp only
      by_cases hb : s.registers o2 = 0
      · rw [if_pos hb]
        simp [hb]
      · rw [if_neg hb]
        simp [hb]
    · intro s' hexec
      unfold VMState.execute_instruction at hexec
      rw [h1] at hexec
      unfold VMState.execute_mod at hexec
      dsimp only at hexec
      by_cases hb : s.registers o2 = 0
      · rw [if_pos hb] at hexec
        exact absurd hexec (by simp)
      · rw [if_neg hb] at hexec
        dsimp only at hexec
        rw [Except.ok.injEq] at hexec
        subst hexec
        constructor
        · dsimp only
          unfold setReg
          rw [Function.update_same]
        · intro r hr
          dsimp only
          unfold setReg
          rw [Function.update_noteq hr]

open RVM in
/-- C5: for the register VM's byte stack, `push(value, size)` raises
"Stack overflow" exactly when `sp + size > stack_size` and otherwise advances
`sp` by `size`; `pop(size)` raises "Stack underflow" exactly when `sp < size`
and otherwise decreases `sp` by `size` and returns the bytes at the new `sp`.
On failure the `Except` embedding returns no successor state: `sp` is
unchanged, matching the C++ throw before any mutation. -/
theorem claim_C5_stack_push_pop_bounds (s : VMState) (value size : Nat) :
    (s.push value size = .error "Stack overflow" ↔ s.sp + size > s.stack_size) ∧
    (∀ s', s.push value size = .ok s' →
      s'.sp = s.sp + size ∧ s'.stack_size = s.stack_size) ∧
    (s.pop size = .error "Stack underflow" ↔ s.sp < size) ∧
    (∀ v s', s.pop size = .ok (v, s') →
      s'.sp = s.sp - size ∧ s'.stack_size = s.stack_size ∧
      v = readBytes s.stackMem (s.sp - size) (min size 8)) := by
  refine ⟨?_, ?_, ?_, ?_⟩
  · unfold VMState.push
    split
    · next h => simp [h]
    · next h => simp [h]
  · intro s' hp
    unfold VMState.push at hp
    split at hp
    · exact absurd hp (by simp)
    · rw [Except.ok.injEq] at hp
      subst hp
      exact ⟨rfl, rfl⟩
  · unfold VMState.pop
    split
    · next h => simp [h]
    · next h => simp [h]
  · intro v s' hp
    unfold VMState.pop at hp
    split at hp
    · exact absurd hp (by simp)
    · rw [Except.ok.injEq, Prod.mk.injEq] at hp
      obtain ⟨hv, hs⟩ := hp
      subst hs
      subst hv
      exact ⟨rfl, rfl, rfl⟩

namespace RVM

/-- A small concrete VM state for the witnesses: zeroed registers and memory,
`pc = 7`, empty call stack, 64 KiB stack and heap. -/
def vm0 : VMState :=
  { registers := fun _ => 0, pc := 7, sp := 0, fp := 0, halt_flag := false,
    call_stack := [], stackMem := fun _ => 0, stack_size := 65536,
    heapMem := fun _ => 0, heap_size := 65536 }

def vmAfterJmp : VMState := { vm0 with pc := 5 }

def vmAfterCall : VMState := { vm0 with call_stack := [7], pc := 3 }

def vmAfterRet : VMState := { vmAfterCall with pc := 8, call_stack := [] }

/-- `vm0` with register 1 holding 10 and register 2 holding 3. -/
def vmDiv : VMState :=
  { vm0 with registers := fun r => if r = (1 : Fin 16) then 10 else if r = 2 then 3 else 0 }

def vmDivRes : VMState :=
  { vmDiv with
    registers := setReg vmDiv.registers 0 (vmDiv.registers 1 / vmDiv.registers 2),
    pc := (vmDiv.pc + 1) % U64 }

def vmPushRes : VMState :=
  { vm0 with stackMem := writeBytes vm0.stackMem vm0.sp 42 (min 8 8), sp := vm0.sp + 8 }

end RVM

open RVM in
theorem claim_C2_witness :
    vm0.execute_instruction ⟨.JMP, 0, 0, 0, 5⟩ = .ok vmAfterJmp ∧ vmAfterJmp.pc = 5 := by
  have hexec : vm0.execute_instruction ⟨.JMP, 0, 0, 0, 5⟩ = .ok vmAfterJmp := by
    have h1 : vm0.dispatch ⟨.JMP, 0, 0, 0, 5⟩ =
        .ok (vm0.execute_jmp ⟨.JMP, 0, 0, 0, 5⟩) := rfl
    unfold VMState.execute_instruction
    rw [h1]
    rfl
  have h := claim_C2_taken_jump_lands_at_immediate vm0 ⟨.JMP, 0, 0, 0, 5⟩ vmAfterJmp hexec
  exact ⟨hexec, (h.2.2 trivial (by norm_num [RVM.U64])).1⟩

open RVM in
theorem claim_C3_witness :
    vm0.execute_instruction ⟨.CALL, 0, 0, 0, 3⟩ = .ok vmAfterCall ∧
    vmAfterCall.execute_instruction ⟨.RET, 0, 0, 0, 0⟩ = .ok vmAfterRet ∧
    vmAfterRet.pc = 8 ∧
    vm0.execute_instruction ⟨.RET, 0, 0, 0, 0⟩ = .error "Return from empty call stack" := by
  have h1 := (claim_C3_call_pushes_ret_pops vm0 ⟨.CALL, 0, 0, 0, 3⟩).1 rfl
    (by norm_num [RVM.U64])
  have h2 := (claim_C3_call_pushes_ret_pops vmAfterCall ⟨.RET, 0, 0, 0, 0⟩).2.2.2.1 rfl
    7 [] rfl (by norm_num [RVM.U64])
  have h3 := (claim_C3_call_pushes_ret_pops vm0 ⟨.RET, 0, 0, 0, 0⟩).2.1 rfl rfl
  exact ⟨h1, h2, rfl, h3⟩

open RVM in
theorem claim_C4_witness :
    vm0.execute_instruction ⟨.DIV, 0, 1, 2, 0⟩ = .error "Division by zero" ∧
    vm0.execute_instruction ⟨.MOD, 0, 1, 2, 0⟩ = .error "Modulo by zero" ∧
    vmDiv.execute_instruction ⟨.DIV, 0, 1, 2, 0⟩ = .ok vmDivRes ∧
    vmDivRes.registers 0 = 3 ∧ vmDivRes.registers 1 = 10 := by
  have hdiv0 := ((claim_C4_div_mod_by_zero vm0 ⟨.DIV, 0, 1, 2, 0⟩).1 rfl).1.mpr rfl
  have hmod0 := ((claim_C4_div_mod_by_zero vm0 ⟨.MOD, 0, 1, 2, 0⟩).2 rfl).1.mpr rfl
  have hexec : vmDiv.execute_instruction ⟨.DIV, 0, 1, 2, 0⟩ = .ok vmDivRes := by
    have h1 : vmDiv.dispatch ⟨.DIV, 0, 1, 2, 0⟩ =
        vmDiv.execute_div ⟨.DIV, 0, 1, 2, 0⟩ := rfl
    unfold VMState.execute_instruction
    rw [h1]
    unfold VMState.execute_div
    rw [if_neg (by decide)]
    rfl
  have hok := ((claim_C4_div_mod_by_zero vmDiv ⟨.DIV, 0, 1, 2, 0⟩).1 rfl).2 vmDivRes hexec
  refine ⟨hdiv0, hmod0, hexec, ?_, ?_⟩
  · rw [hok.1]
    decide
  · rw [hok.2 1 (by decide)]
    decide

open RVM in
theorem claim_C5_witness :
    vm0.push 42 70000 = .error "Stack overflow" ∧
    vm0.pop 8 = .error "Stack underflow" ∧
    vm0.push 42 8 = .ok vmPushRes ∧ vmPushRes.sp = 8 := by
  have hov := (claim_C5_stack_push_pop_bounds vm0 42 70000).1.mpr (by norm_num [RVM.vm0])
  have hun := (claim_C5_stack_push_pop_bounds vm0 8 8).2.2.1.mpr (by norm_num [RVM.vm0])
  have hpush : vm0.push 42 8 = .ok vmPushRes := by
    unfold VMState.push
    rw [if_neg (by norm_num [RVM.vm0])]
    rfl
  have hsp := ((claim_C5_stack_push_pop_bounds vm0 42 8).2.1 vmPushRes hpush).1
  exact ⟨hov, hun, hpush, hsp⟩

namespace RComp

/-! ### Bytecode compiler embedding (src/unnamed/part_001, `rplus::Compiler`)

The visitor mutates a compiler state (module, current bytecode buffer, scope
stack, register counter, labels); the embedding threads that state
explicitly and returns `Except` for `throw std::runtime_error`.  The class
definitions of the AST nodes, `FunctionScope`, `Function` and
`BytecodeModule` are not under src/ — their shapes are reconstructed from
the accessors the compiler calls and, where noted, from the spec.  The
visitor recursion is indexed by explicit fuel (the C++ call stack): every
theorem quantifies over all fuel values.  `std::vector` scope-stack
push_back/back/pop_back at the back is modelled with list cons at the head
(the stack top). -/

def UINT32_MAX : Nat := 4294967295

/-- Modelled from the spec: `MAX_REGISTERS` is "a fixed constant, e.g. 256";
its definition is in the missing compiler header.  No claim depends on the
value. -/
def MAX_REGISTERS : Nat := 256

/-- Compiler opcodes (`rplus::OpCode` as used by part_001). -/
inductive COpCode where
  | LoadConst | LoadVar | StoreVar
  | Add | Sub | Mul | Div | Mod
  | Equal | NotEqual | Less | LessEqual | Greater | GreaterEqual
  | And | Or | Neg | Not
  | Jump | JumpIfFalse | Call | Return
  | NewArray | IndexLoad | IndexStore
  deriving DecidableEq, Repr

/-- A compiler instruction: opcode plus operand words (`addOperand`). -/
structure CInstruction where
  opcode : COpCode
  operands : List Nat
  deriving DecidableEq, Repr

/-- The AST consumed by the compiler visitor (node shapes from the accessors
used in part_001: `statements()`, `name()`, `parameters()`, `body()`,
`condition()`, `op()`, `left()`, `right()`, `value()`, `arguments()`,
`elements()`, `array()`, `index()`, `init()`, `update()`,
`thenBranch()`/`elseBranch()`/`hasElseBranch()`, `hasValue()`).  Literal
values are kept as their text. -/
inductive CAst where
  | Program (statements : List CAst)
  | FunctionDef (name : String) (parameters : List String) (body : CAst)
  | Block (statements : List CAst)
  | BinaryOp (op : String) (left : CAst) (right : CAst)
  | UnaryOp (op : String) (operand : CAst)
  | Literal (value : String)
  | Identifier (name : String)
  | Assignment (name : String) (value : CAst)
  | IfStatement (condition : CAst) (thenBranch : CAst) (elseBranch : Option CAst)
  | WhileLoop (condition : CAst) (body : CAst)
  | ForLoop (init : CAst) (condition : CAst) (update : CAst) (body : CAst)
  | FunctionCall (name : String) (arguments : List CAst)
  | ReturnStatement (value : Option CAst)
  | ArrayLiteral (elements : List CAst)
  | IndexAccess (array : CAst) (index : CAst)

/-- Modelled from the spec: a `FunctionScope` holds an ordered map
`name → slot` ("each holding an ordered map name → slot"); the class
definition is in the missing compiler header. -/
structure FunctionScope where
  name : String
  vars : List (String × Nat)
  deriving DecidableEq, Repr

/-- Modelled from the spec: scope-local lookup returns the bound slot, or
`UINT32_MAX` when the scope does not bind the name. -/
def FunctionScope.lookupVariable (sc : FunctionScope) (n : String) : Nat :=
  match sc.vars.find? (fun p => p.1 = n) with
  | some p => p.2
  | none => UINT32_MAX

/-- Modelled from the spec: "allocateVariable appends to the top scope" —
the next slot is the current binding count. -/
def FunctionScope.allocateVariable (sc : FunctionScope) (n : String) : Nat × FunctionScope :=
  (sc.vars.length, { sc with vars := sc.vars ++ [(n, sc.vars.length)] })

/-- `FunctionScope(name, parameters)`: parameters get slots `0..k-1`. -/
def mkFunctionScope (name : String) (params : List String) : FunctionScope :=
  ⟨name, params.enum.map (fun p => (p.2, p.1))⟩

/-- `rplus::Function`: name, parameter count/list, bytecode
(`setParameters` / `setBytecode`). -/
structure CFunction where
  name : String
  parameterCount : Nat
  parameters : List String
  bytecode : List CInstruction
  deriving DecidableEq, Repr

/-- `rplus::BytecodeModule`: shared constant pool and ordered function list. -/
structure BytecodeModule where
  constants : List String
  functions : List CFunction
  deriving DecidableEq, Repr

/-- `module.addConstant`: appends and returns the fresh index. -/
def BytecodeModule.addConstant (m : BytecodeModule) (v : String) : Nat × BytecodeModule :=
  (m.constants.length, { m with constants := m.constants ++ [v] })

/-- `module.lookupFunction`: index by name, `UINT32_MAX` when absent. -/
def BytecodeModule.lookupFunction (m : BytecodeModule) (n : String) : Nat :=
  match m.functions.findIdx? (fun f => f.name = n) with
  | some i => i
  | none => UINT32_MAX

/-- `module.registerFunction`: appends. -/
def BytecodeModule.registerFunction (m : BytecodeModule) (f : CFunction) : BytecodeModule :=
  { m with functions := m.functions ++ [f] }

/-- The compiler's mutable members: `current_module_`, `current_bytecode_`,
`scope_stack_` (head = top), `current_register_`, `next_label_`,
`label_positions_` (assignment history). -/
structure CompilerState where
  module : BytecodeModule
  current_bytecode : List CInstruction
  scope_stack : List FunctionScope
  current_register : Nat
  next_label : Nat
  label_positions : List (Nat × Nat)
  deriving DecidableEq, Repr

/-- `Compiler::emit`. -/
def emit (st : CompilerState) (opcode : COpCode) (operands : List Nat) : CompilerState :=
  { st with current_bytecode := st.current_bytecode ++ [⟨opcode, operands⟩] }

/-- `Compiler::allocateRegister`. -/
def allocateRegister (st : CompilerState) : Except String CompilerState :=
  if st.current_register < MAX_REGISTERS then
    .ok { st with current_register := st.current_register + 1 }
  else .error "Register overflow: too many temporary values"

/-- `Compiler::genLabel`. -/
def genLabel (st : CompilerState) : Nat × CompilerState :=
  (st.next_label, { st with next_label := st.next_label + 1 })

/-- `Compiler::markLabel`: records the current bytecode index for the label. -/
def markLabel (st : CompilerState) (label : Nat) : CompilerState :=
  { st with label_positions := st.label_positions ++ [(label, st.current_bytecode.length)] }

/-- `Compiler::lookupVariable` (part_001, lines 396-402): on a nonempty
scope stack it consults only `scope_stack_.back()` — the topmost scope. -/
def compilerLookupVariable (scope_stack : List FunctionScope) (n : String) : Nat :=
  match scope_stack with
  | [] => UINT32_MAX
  | top :: _ => top.lookupVariable n

/-- `Compiler::allocateVariable`. -/
def compilerAllocateVariable (st : CompilerState) (n : String) :
    Except String (Nat × CompilerState) :=
  match st.scope_stack with
  | [] => .error "No active scope for variable allocation"
  | top :: rest =>
    match top.allocateVariable n with
    | (slot, top') => .ok (slot, { st with scope_stack := top' :: rest })

/-- The binary-operator table of `Compiler::binaryOpToOpCode`, one entry per
`if (op == "…") return …;` line, in source order. -/
def binaryOpTable : List (String × COpCode) :=
  [("+", .Add), ("-", .Sub), ("*", .Mul), ("/", .Div), ("%", .Mod),
   ("==", .Equal), ("!=", .NotEqual), ("<", .Less), ("<=", .LessEqual),
   (">", .Greater), (">=", .GreaterEqual), ("&&", .And), ("||", .Or)]

def binaryOpToOpCode (op : String) : Except String COpCode :=
  match binaryOpTable.find? (fun p => op = p.1) with
  | some p => .ok p.2
  | none => .error ("Unknown binary operator: " ++ op)

/-- `Compiler::unaryOpToOpCode`. -/
def unaryOpToOpCode (op : String) : Except String COpCode :=
  if op = "-" then .ok .Neg
  else if op = "!" then .ok .Not
  else .error ("Unknown unary operator: " ++ op)

/-- The ending step of `Compiler::visitFunctionDef` (part_001, lines
110-115): "Add return instruction if not present" — when the body bytecode
is empty or its last instruction is not `Return`, append
`LoadConst 0` (nil) and `Return`. -/
def finishFunctionBody (code : List CInstruction) : List CInstruction :=
  match code.getLast? with
  | none => code ++ [⟨.LoadConst, [0]⟩, ⟨.Return, []⟩]
  | some ins =>
    if ins.opcode ≠ .Return then code ++ [⟨.LoadConst, [0]⟩, ⟨.Return, []⟩]
    else code

mutual

/-- `Compiler::visitNode` and the per-node visitors of part_001, with
explicit state threading and fuel for the C++ recursion. -/
def visitNodeF : Nat → CAst → CompilerState → Except String CompilerState
  | 0, _, _ => .error "recursion limit"
  | fuel + 1, ast, st =>
    match ast with
    | .Program stmts => visitListF fuel stmts st
    | .Block stmts => visitListF fuel stmts st
    | .FunctionDef name params body =>
      match visitNodeF fuel body
          { st with scope_stack := mkFunctionScope name params :: st.scope_stack } with
      | .error e => .error e
      | .ok st2 =>
        .ok { st2 with
          module := st2.module.registerFunction
            ⟨name, params.length, params, finishFunctionBody st2.current_bytecode⟩,
          current_bytecode := [],
          scope_stack := st2.scope_stack.tail }
    | .BinaryOp op l r =>
      match visitNodeF fuel l st with
      | .error e => .error e
      | .ok st1 =>
        match visitNodeF fuel r st1 with
        | .error e => .error e
        | .ok st2 =>
          match binaryOpToOpCode op with
          | .error e => .error e
          | .ok opc =>
            .ok (emit st2 opc [st1.current_register - 1, st2.current_register - 1])
    | .UnaryOp op e =>
      match visitNodeF fuel e st with
      | .error e => .error e
      | .ok st1 =>
        match unaryOpToOpCode op with
        | .error e => .error e
        | .ok opc => .ok (emit st1 opc [st1.current_register - 1])
    | .Literal v =>
      match st.module.addConstant v with
      | (idx, m') => allocateRegister (emit { st with module := m' } .LoadConst [idx])
    | .Identifier name =>
      if compilerLookupVariable st.scope_stack name ≠ UINT32_MAX then
        allocateRegister (emit st .LoadVar [compilerLookupVariable st.scope_stack name])
      else .error ("Undefined variable: " ++ name)
    | .Assignment name value =>
      match visitNodeF fuel value st with
      | .error e => .error e
      | .ok st1 =>
        if compilerLookupVariable st1.scope_stack name ≠ UINT32_MAX then
          .ok (emit st1 .StoreVar
            [compilerLookupVariable st1.scope_stack name, st1.current_register - 1])
        else
          match compilerAllocateVariable st1 name with
          | .error e => .error e
          | .ok (slot, st2) => .ok (emit st2 .StoreVar [slot, st1.current_register - 1])
    | .IfStatement cond thenB elseB =>
      match visitNodeF fuel cond st with
      | .error e => .error e
      | .ok st1 =>
        match genLabel st1 with
        | (false_label, st2) =>
          match visitNodeF fuel thenB
              (emit st2 .JumpIfFalse [st1.current_register - 1, false_label]) with
          | .error e => .error e
          | .ok st4 =>
            match genLabel st4 with
            | (end_label, st5) =>
              match (match elseB with
                     | some els => visitNodeF fuel els
                         (markLabel (emit st5 .Jump [end_label]) false_label)
                     | none => .ok (markLabel (emit st5 .Jump [end_label]) false_label)) with
              | .error e => .error e
              | .ok st8 => .ok (markLabel st8 end_label)
    | .WhileLoop cond body =>
      match genLabel st with
      | (loop_label, st1) =>
        match visitNodeF fuel cond (markLabel st1 loop_label) with
        | .error e => .error e
        | .ok st3 =>
          match genLabel st3 with
          | (exit_label, st4) =>
            match visitNodeF fuel body
                (emit st4 .JumpIfFalse [st3.current_register - 1, exit_label]) with
            | .error e => .error e
            | .ok st6 => .ok (markLabel (emit st6 .Jump [loop_label]) exit_label)
    | .ForLoop init cond update body =>
      match visitNodeF fuel init
          { st with scope_stack := mkFunctionScope "for_loop" [] :: st.scope_stack } with
      | .error e => .error e
      | .ok st2 =>
        match genLabel st2 with
        | (loop_label, st3) =>
          match visitNodeF fuel cond (markLabel st3 loop_label) with
          | .error e => .error e
          | .ok st5 =>
            match genLabel st5 with
            | (exit_label, st6) =>
              match visitNodeF fuel body
                  (emit st6 .JumpIfFalse [st5.current_register - 1, exit_label]) with
              | .error e => .error e
              | .ok st8 =>
                match visitNodeF fuel update st8 with
                | .error e => .error e
                | .ok st9 =>
                  .ok { (markLabel (emit st9 .Jump [loop_label]) exit_label) with
                    scope_stack :=
                      (markLabel (emit st9 .Jump [loop_label]) exit_label).scope_stack.tail }
    | .FunctionCall name args =>
      match visitArgsF fuel args st [] with
      | .error e => .error e
      | .ok (arg_regs, st1) =>
        if st1.module.lookupFunction name ≠ UINT32_MAX then
          allocateRegister (emit st1 .Call [st1.module.lookupFunction name, arg_regs.length])
        else .error ("Undefined function: " ++ name)
    | .ReturnStatement value =>
      match value with
      | some v =>
        match visitNodeF fuel v st with
        | .error e => .error e
        | .ok st1 => .ok (emit st1 .Return [st1.current_register - 1])
      | none => .ok (emit (emit st .LoadConst [0]) .Return [])
    | .ArrayLiteral elems =>
      match visitListF fuel elems st with
      | .error e => .error e
      | .ok st1 => allocateRegister (emit st1 .NewArray [elems.length])
    | .IndexAccess arr idx =>
      match visitNodeF fuel arr st with
      | .error e => .error e
      | .ok st1 =>
        match visitNodeF fuel idx st1 with
        | .error e => .error e
        | .ok st2 =>
          .ok (emit st2 .IndexLoad [st1.current_register - 1, st2.current_register - 1])

/-- The statement loops of `visitProgram` / `visitBlock` / `visitArrayLiteral`. -/
def visitListF : Nat → List CAst → CompilerState → Except String CompilerState
  | 0, _, _ => .error "recursion limit"
  | _ + 1, [], st => .ok st
  | fuel + 1, a :: rest, st =>
    match visitNodeF fuel a st with
    | .error e => .error e
    | .ok st1 => visitListF fuel rest st1

/-- The argument loop of `visitFunctionCall` (collects result registers). -/
def visitArgsF : Nat → List CAst → CompilerState → List Nat →
    Except String (List Nat × CompilerState)
  | 0, _, _, _ => .error "recursion limit"
  | _ + 1, [], st, regs => .ok (regs, st)
  | fuel + 1, a :: rest, st, regs =>
    match visitNodeF fuel a st with
    | .error e => .error e
    | .ok st1 => visitArgsF fuel rest st1 (regs ++ [st1.current_register - 1])

end

/-- The bytecode of a registered function ends with a `Return` instruction. -/
def endsWithReturn (code : List CInstruction) : Prop :=
  ∃ ins, code.getLast? = some ins ∧ ins.opcode = .Return

end RComp

namespace RComp

theorem getLast?_append_two {α : Type} (l : List α) (a b : α) :
    (l ++ [a, b]).getLast? = some b := by
  rw [show l ++ [a, b] = (l ++ [a]) ++ [b] by simp]
  exact List.getLast?_concat _

/-- The finishing step of `visitFunctionDef` always leaves `Return` last. -/
theorem finishFunctionBody_endsWithReturn (code : List CInstruction) :
    endsWithReturn (finishFunctionBody code) := by
  unfold finishFunctionBody
  split
  · exact ⟨⟨.Return, []⟩, getLast?_append_two _ _ _, rfl⟩
  · next ins heq =>
    split
    · exact ⟨⟨.Return, []⟩, getLast?_append_two _ _ _, rfl⟩
    · next hne =>
      exact ⟨ins, heq, by simpa using hne⟩

/-- The appending branch of the finishing step fires exactly when the body is
empty or does not already end in `Return`. -/
theorem finishFunctionBody_append_iff (code : List CInstruction) :
    (code = [] ∨ (∀ ins, code.getLast? = some ins → ins.opcode ≠ .Return) →
      finishFunctionBody code = code ++ [⟨.LoadConst, [0]⟩, ⟨.Return, []⟩]) ∧
    (∀ ins, code.getLast? = some ins → ins.opcode = .Return →
      finishFunctionBody code = code) := by
  constructor
  · intro h
    unfold finishFunctionBody
    split
    · rfl
    · next ins heq =>
      rcases h with h | h
      · subst h
        simp at heq
      · rw [if_pos (h ins heq)]
  · intro ins heq hret
    unfold finishFunctionBody
    rw [heq]
    simp [hret]

/-- Functions registered between two compiler states: any function present
afterwards was either already present or has `Return`-terminated bytecode. -/
def moduleGrowsRet (st st' : CompilerState) : Prop :=
  ∀ f ∈ st'.module.functions, f ∈ st.module.functions ∨ endsWithReturn f.bytecode

theorem moduleGrowsRet_refl (st : CompilerState) : moduleGrowsRet st st :=
  fun f hf => Or.inl hf

theorem moduleGrowsRet_trans {s1 s2 s3 : CompilerState}
    (h12 : moduleGrowsRet s1 s2) (h23 : moduleGrowsRet s2 s3) : moduleGrowsRet s1 s3 :=
  fun f hf => (h23 f hf).elim (fun h => h12 f h) Or.inr

theorem moduleGrowsRet_of_funs_eq {st st' : CompilerState}
    (h : st'.module.functions = st.module.functions) : moduleGrowsRet st st' :=
  fun f hf => Or.inl (h ▸ hf)

theorem moduleGrowsRet_congr_right {st s1 s2 : CompilerState}
    (hg : moduleGrowsRet st s1)
    (h : s2.module.functions = s1.module.functions) : moduleGrowsRet st s2 :=
  fun f hf => hg f (h ▸ hf)

theorem moduleGrowsRet_congr_left {st s1 s2 : CompilerState}
    (hg : moduleGrowsRet s1 s2)
    (h : s1.module.functions = st.module.functions) : moduleGrowsRet st s2 :=
  fun f hf => (hg f hf).imp_left (fun hm => h ▸ hm)

theorem allocateRegister_module (st st' : CompilerState)
    (h : allocateRegister st = .ok st') : st'.module = st.module := by
  unfold allocateRegister at h
  split at h
  · rw [Except.ok.injEq] at h
    subst h
    rfl
  · exact absurd h (by simp)

theorem compilerAllocateVariable_module (st : CompilerState) (n : String) (slot : Nat)
    (st' : CompilerState) (h : compilerAllocateVariable st n = .ok (slot, st')) :
    st'.module = st.module := by
  unfold compilerAllocateVariable at h
  split at h
  · exact absurd h (by simp)
  · split at h
    rw [Except.ok.injEq, Prod.mk.injEq] at h
    rw [← h.2]

theorem visit_moduleGrowsRet (fuel : Nat) :
    (∀ ast st st', visitNodeF fuel ast st = .ok st' → moduleGrowsRet st st') ∧
    (∀ l st st', visitListF fuel l st = .ok st' → moduleGrowsRet st st') ∧
    (∀ l st regs out st', visitArgsF fuel l st regs = .ok (out, st') →
      moduleGrowsRet st st') := by
  induction fuel with
  | zero =>
    refine ⟨?_, ?_, ?_⟩
    · intro ast st st' h1
      exact absurd h1 (by simp [visitNodeF])
    · intro l st st' h1
      exact absurd h1 (by simp [visitListF])
    · intro l st regs out st' h1
      exact absurd h1 (by simp [visitArgsF])
  | succ fuel ih =>
    obtain ⟨ihN, ihL, ihA⟩ := ih
    refine ⟨?_, ?_, ?_⟩
    · intro ast st st' h
      cases ast with
      | Program stmts =>
        simp only [visitNodeF] at h
        exact ihL _ _ _ h
      | Block stmts =>
        simp only [visitNodeF] at h
        exact ihL _ _ _ h
      | FunctionDef name params body =>
        simp only [visitNodeF] at h
        split at h
        · exact absurd h (by simp)
        · next st2 heq =>
          rw [Except.ok.injEq] at h
          subst h
          have hbody := ihN _ _ _ heq
          intro f hf
          simp only [BytecodeModule.registerFunction, List.mem_append,
            List.mem_singleton] at hf
          rcases hf with hf | hf
          · exact hbody f hf
          · subst hf
            exact Or.inr (finishFunctionBody_endsWithReturn _)
      | BinaryOp op l r =>
        simp only [visitNodeF] at h
        split at h
        · exact absurd h (by simp)
        · next st1 heq1 =>
          split at h
          · exact absurd h (by simp)
          · next st2 heq2 =>
            split at h
            · exact absurd h (by simp)
            · next opc heq3 =>
              rw [Except.ok.injEq] at h
              subst h
              exact moduleGrowsRet_congr_right
                (moduleGrowsRet_trans (ihN _ _ _ heq1) (ihN _ _ _ heq2)) rfl
      | UnaryOp op e =>
        simp only [visitNodeF] at h
        split at h
        · exact absurd h (by simp)
        · next st1 heq1 =>
          split at h
          · exact absurd h (by simp)
          · next opc heq2 =>
            rw [Except.ok.injEq] at h
            subst h
            exact moduleGrowsRet_congr_right (ihN _ _ _ heq1) rfl
      | Literal v =>
        simp only [visitNodeF] at h
        have hm := allocateRegister_module _ _ h
        exact moduleGrowsRet_of_funs_eq (by rw [hm]; rfl)
      | Identifier name =>
        simp only [visitNodeF] at h
        split at h
        · have hm := allocateRegister_module _ _ h
          exact moduleGrowsRet_of_funs_eq (by rw [hm]; rfl)
        · exact absurd h (by simp)
      | Assignment name value =>
        simp only [visitNodeF] at h
        split at h
        · exact absurd h (by simp)
        · next st1 heq1 =>
          split at h
          · rw [Except.ok.injEq] at h
            subst h
            exact moduleGrowsRet_congr_right (ihN _ _ _ heq1) rfl
          · split at h
            · exact absurd h (by simp)
            · next slot st2 heq2 =>
              rw [Except.ok.injEq] at h
              subst h
              have hm := compilerAllocateVariable_module _ _ _ _ heq2
              exact moduleGrowsRet_congr_right (ihN _ _ _ heq1) (by rw [show (emit st2
                .StoreVar [slot, st1.current_register - 1]).module = st2.module from rfl, hm])
      | IfStatement cond thenB elseB =>
        rcases elseB with _ | els
        · simp only [visitNodeF] at h
          split at h
          · exact absurd h (by simp)
          · next st1 heq1 =>
            split at h
            · exact absurd h (by simp)
            · next st4 heq3 =>
              rw [Except.ok.injEq] at h
              subst h
              exact moduleGrowsRet_congr_right
                (moduleGrowsRet_trans (ihN _ _ _ heq1)
                  (moduleGrowsRet_congr_left (ihN _ _ _ heq3) rfl)) rfl
        · simp only [visitNodeF] at h
          split at h
          · exact absurd h (by simp)
          · next st1 heq1 =>
            split at h
            · exact absurd h (by simp)
            · next st4 heq3 =>
              split at h
              · exact absurd h (by simp)
              · next st8 heq5 =>
                rw [Except.ok.injEq] at h
                subst h
                exact moduleGrowsRet_congr_right
                  (moduleGrowsRet_trans (ihN _ _ _ heq1)
                    (moduleGrowsRet_trans
                      (moduleGrowsRet_congr_left (ihN _ _ _ heq3) rfl)
                      (moduleGrowsRet_congr_left (ihN _ _ _ heq5) rfl))) rfl
      | WhileLoop cond body =>
        simp only [visitNodeF] at h
        split at h
        · exact absurd h (by simp)
        · next st3 heq1 =>
          split at h
          · exact absurd h (by simp)
          · next st6 heq3 =>
            rw [Except.ok.injEq] at h
            subst h
            exact moduleGrowsRet_congr_right
              (moduleGrowsRet_trans
                (moduleGrowsRet_congr_left (ihN _ _ _ heq1) rfl)
                (moduleGrowsRet_congr_left (ihN _ _ _ heq3) rfl)) rfl
      | ForLoop init cond update body =>
        simp only [visitNodeF] at h
        split at h
        · exact absurd h (by simp)
        · next st2 heq1 =>
          split at h
          · exact absurd h (by simp)
          · next st5 heq3 =>
            split at h
            · exact absurd h (by simp)
            · next st8 heq5 =>
              split at h
              · exact absurd h (by simp)
              · next st9 heq6 =>
                rw [Except.ok.injEq] at h
                subst h
                exact moduleGrowsRet_congr_right
                  (moduleGrowsRet_trans
                    (moduleGrowsRet_congr_left (ihN _ _ _ heq1) rfl)
                    (moduleGrowsRet_trans
                      (moduleGrowsRet_congr_left (ihN _ _ _ heq3) rfl)
                      (moduleGrowsRet_trans
                        (moduleGrowsRet_congr_left (ihN _ _ _ heq5) rfl)
                        (ihN _ _ _ heq6)))) rfl
      | FunctionCall name args =>
        simp only [visitNodeF] at h
        split at h
        · exact absurd h (by simp)
        · next arg_regs st1 heq1 =>
          split at h
          · have hm := allocateRegister_module _ _ h
            exact moduleGrowsRet_congr_right (ihA _ _ _ _ _ heq1) (by rw [hm]; rfl)
          · exact absurd h (by simp)
      | ReturnStatement value =>
        rcases value with _ | v
        · simp only [visitNodeF] at h
          rw [Except.ok.injEq] at h
          subst h
          exact moduleGrowsRet_of_funs_eq rfl
        · simp only [visitNodeF] at h
          split at h
          · exact absurd h (by simp)
          · next st1 heq1 =>
            rw [Except.ok.injEq] at h
            subst h
            exact moduleGrowsRet_congr_right (ihN _ _ _ heq1) rfl
      | ArrayLiteral elems =>
        simp only [visitNodeF] at h
        split at h
        · exact absurd h (by simp)
        · next st1 heq1 =>
          have hm := allocateRegister_module _ _ h
          exact moduleGrowsRet_congr_right (ihL _ _ _ heq1) (by rw [hm]; rfl)
      | IndexAccess arr idx =>
        simp only [visitNodeF] at h
        split at h
        · exact absurd h (by simp)
        · next st1 heq1 =>
          split at h
          · exact absurd h (by simp)
          · next st2 heq2 =>
            rw [Except.ok.injEq] at h
            subst h
            exact moduleGrowsRet_congr_right
              (moduleGrowsRet_trans (ihN _ _ _ heq1) (ihN _ _ _ heq2)) rfl
    · intro l st st' h
      cases l with
      | nil =>
        simp only [visitListF] at h
        rw [Except.ok.injEq] at h
        subst h
        exact moduleGrowsRet_refl st
      | cons a rest =>
        simp only [visitListF] at h
        split at h
        · exact absurd h (by simp)
        · next st1 heq1 =>
          exact moduleGrowsRet_trans (ihN _ _ _ heq1) (ihL _ _ _ h)
    · intro l st regs out st' h
      cases l with
      | nil =>
        simp only [visitArgsF] at h
        rw [Except.ok.injEq, Prod.mk.injEq] at h
        rw [← h.2]
        exact moduleGrowsRet_refl st
      | cons a rest =>
        simp only [visitArgsF] at h
        split at h
        · exact absurd h (by simp)
        · next st1 heq1 =>
          exact moduleGrowsRet_trans (ihN _ _ _ heq1) (ihA _ _ _ _ _ h)

end RComp

open RComp in
/-- C1: when `visitFunctionDef` lowers a function whose emitted body is empty
or whose last instruction is not `Return`, it appends `LoadConst 0` (nil) and
`Return` before registering the function; when the body already ends in
`Return` nothing is appended; consequently every function a successful
compiler run registers in the module has bytecode whose final instruction is
`Return`. -/
theorem claim_C1_functions_end_with_Return :
    (∀ code : List CInstruction,
      (code = [] ∨ (∀ ins, code.getLast? = some ins → ins.opcode ≠ .Return) →
        finishFunctionBody code = code ++ [⟨.LoadConst, [0]⟩, ⟨.Return, []⟩]) ∧
      (∀ ins, code.getLast? = some ins → ins.opcode = .Return →
        finishFunctionBody code = code) ∧
      endsWithReturn (finishFunctionBody code)) ∧
    (∀ (fuel : Nat) (ast : CAst) (st st' : CompilerState),
      visitNodeF fuel ast st = .ok st' →
      ∀ f ∈ st'.module.functions,
        f ∈ st.module.functions ∨ endsWithReturn f.bytecode) := by
  constructor
  · intro code
    exact ⟨(finishFunctionBody_append_iff code).1, (finishFunctionBody_append_iff code).2,
      finishFunctionBody_endsWithReturn code⟩
  · intro fuel ast st st' h
    exact (visit_moduleGrowsRet fuel).1 ast st st' h

namespace RComp

/-- The compiler's initial state (fresh module, empty buffers). -/
def st0 : CompilerState := ⟨⟨[], []⟩, [], [], 0, 0, []⟩

/-- The registered function compiled from `function f() {}`. -/
def funF : CFunction := ⟨"f", 0, [], [⟨.LoadConst, [0]⟩, ⟨.Return, []⟩]⟩

/-- The compiler state after compiling `function f() {}`. -/
def stF : CompilerState := ⟨⟨[], [funF]⟩, [], [], 0, 0, []⟩

end RComp

open RComp in
theorem claim_C1_witness :
    visitNodeF 3 (.FunctionDef "f" [] (.Block [])) st0 = .ok stF ∧
    funF ∈ stF.module.functions ∧ endsWithReturn funF.bytecode := by
  have hexec : visitNodeF 3 (.FunctionDef "f" [] (.Block [])) st0 = .ok stF := rfl
  have h := claim_C1_functions_end_with_Return.2 3 (.FunctionDef "f" [] (.Block []))
    st0 stF hexec funF (by simp [stF])
  rcases h with hl | hr
  · exact absurd hl (by simp [st0])
  · exact ⟨hexec, by simp [stF], hr⟩

namespace RComp

/-- Definition following the spec's words, for comparison with the code's
`Compiler::lookupVariable`: "lookupVariable scans top-down" — return the slot
from the nearest enclosing scope that binds the name, `UINT32_MAX` when no
scope on the stack binds it. -/
def lookupVariableSpecScan : List FunctionScope → String → Nat
  | [], _ => UINT32_MAX
  | top :: rest, n =>
    if top.lookupVariable n ≠ UINT32_MAX then top.lookupVariable n
    else lookupVariableSpecScan rest n

/-- A scope stack whose topmost scope binds nothing while the enclosing
scope binds `x` at slot 0. -/
def scopesCE : List FunctionScope := [⟨"top", []⟩, ⟨"outer", [("x", 0)]⟩]

end RComp

open RComp in
/-- C7 counterexample: on a two-scope stack where only the enclosing
(non-top) scope binds `x`, the code's `Compiler::lookupVariable` returns the
not-found sentinel `UINT32_MAX`, while the claimed top-down scan would
return the enclosing scope's slot 0. -/
theorem claim_C7_counterexample :
    compilerLookupVariable scopesCE "x" = UINT32_MAX ∧
    lookupVariableSpecScan scopesCE "x" = 0 ∧ (0 : Nat) ≠ UINT32_MAX := by
  refine ⟨rfl, rfl, by decide⟩

open RComp in
/-- C7 (amended): `Compiler::lookupVariable` consults only the topmost scope
of the stack: on an empty stack it returns `UINT32_MAX`; on a nonempty stack
its result ignores all enclosing scopes, is `UINT32_MAX` whenever the topmost
scope does not bind the name (even when an enclosing scope does), and is the
first slot the topmost scope binds to the name otherwise. -/
theorem claim_C7_lookup_top_scope_only (top : FunctionScope)
    (rest : List FunctionScope) (n : String) :
    compilerLookupVariable [] n = UINT32_MAX ∧
    compilerLookupVariable (top :: rest) n = compilerLookupVariable [top] n ∧
    ((∀ p ∈ top.vars, p.1 ≠ n) → compilerLookupVariable (top :: rest) n = UINT32_MAX) ∧
    (∀ p, top.vars.find? (fun q => q.1 = n) = some p →
      compilerLookupVariable (top :: rest) n = p.2) := by
  refine ⟨rfl, rfl, ?_, ?_⟩
  · intro hnb
    have hn : top.vars.find? (fun q => q.1 = n) = none := by
      rw [List.find?_eq_none]
      intro x hx
      simp only [decide_eq_true_eq]
      exact hnb x hx
    unfold compilerLookupVariable FunctionScope.lookupVariable
    dsimp only
    rw [hn]
  · intro p hp
    unfold compilerLookupVariable FunctionScope.lookupVariable
    dsimp only
    rw [hp]

open RComp in
theorem claim_C7_witness :
    compilerLookupVariable [⟨"top", [("y", 0), ("x", 1)]⟩, ⟨"outer", [("x", 0)]⟩] "x" = 1 := by
  exact (claim_C7_lookup_top_scope_only ⟨"top", [("y", 0), ("x", 1)]⟩
    [⟨"outer", [("x", 0)]⟩] "x").2.2.2 ("x", 1) (by rfl)

namespace RParse

/-! ### Parser embedding (src/unnamed/part_002, `Parser::...`)

The expression grammar of the recursive-descent parser.  The parser's
`(tokens, current)` cursor is modelled as the remaining token list;
`match`/`check`/`consume`/`previous` become list operations.  Recursion is
indexed by explicit fuel (the C++ call stack); every theorem quantifies
over fuel.  Only the expression parsers are embedded — the statement
parsers are not needed by the claims. -/

/-- The token vocabulary the parser references (`TokenType` of the parser's
header, which is not under src/; note it has `ASSIGN` and `NEWLINE`, unlike
the primary lexer's enum — the spec records the two vocabularies as an open
question). -/
inductive PTokenType where
  | NUMBER | STRING | IDENTIFIER
  | IF | ELSE | WHILE | FOR | FUNCTION | RETURN | VAR | CONST
  | TRUE | FALSE | NULL_TOKEN
  | ASSIGN | OR | AND | EQUAL_EQUAL | NOT_EQUAL
  | LESS | LESS_EQUAL | GREATER | GREATER_EQUAL
  | PLUS | MINUS | MULTIPLY | DIVIDE | MODULO | NOT
  | LEFT_PAREN | RIGHT_PAREN | LEFT_BRACE | RIGHT_BRACE
  | LEFT_BRACKET | RIGHT_BRACKET
  | COMMA | SEMICOLON | NEWLINE | END_OF_FILE
  deriving DecidableEq, Repr

/-- A parser token: kind, lexeme, line. -/
structure PToken where
  type : PTokenType
  value : String
  line : Nat
  deriving DecidableEq, Repr

/-- The AST nodes the expression parser constructs (`NumberNode` keeps the
numeric literal's text; `std::stod` is an abstraction boundary the claims do
not cross). -/
inductive PAst where
  | NumberNode (value : String)
  | StringNode (value : String)
  | VariableNode (name : String)
  | BooleanNode (value : Bool)
  | NullNode
  | BinaryOpNode (left : PAst) (op : PTokenType) (right : PAst)
  | UnaryOpNode (op : PTokenType) (operand : PAst)
  | CallNode (callee : PAst) (args : List PAst)
  | IndexNode (array : PAst) (index : PAst)
  | ArrayNode (elements : List PAst)
  | AssignmentNode (name : String) (value : PAst)

/-- The static EOF token `Parser::peek` returns past the end. -/
def eofToken : PToken := ⟨.END_OF_FILE, "", 0⟩

/-- `Parser::peek`. -/
def pPeek (ts : List PToken) : PToken := ts.headD eofToken

/-- `Parser::isAtEnd`. -/
def pIsAtEnd (ts : List PToken) : Bool :=
  ts.isEmpty || (pPeek ts).type == .END_OF_FILE

/-- `Parser::check`. -/
def pCheck (ty : PTokenType) (ts : List PToken) : Bool :=
  if pIsAtEnd ts then false else (pPeek ts).type == ty

/-- `Parser::match`: `some` of the rest when the current token matched. -/
def pMatch (ty : PTokenType) (ts : List PToken) : Option (List PToken) :=
  if pCheck ty ts then some ts.tail else none

/-- `Parser::consume`: the matched token and the rest, or the error message
with `" at line N"` appended. -/
def pConsume (ty : PTokenType) (msg : String) (ts : List PToken) :
    Except String (PToken × List PToken) :=
  if pCheck ty ts then .ok (pPeek ts, ts.tail)
  else .error (msg ++ " at line " ++ toString (pPeek ts).line)

mutual

/-- `Parser::parseExpression`. -/
def parseExpressionF : Nat → List PToken → Except String (PAst × List PToken)
  | 0, _ => .error "recursion limit"
  | fuel + 1, ts => parseAssignmentF fuel ts

/-- `Parser::parseAssignment` (part_002, lines 1270-1285): parse the lhs at
the `||` level; on `ASSIGN`, parse the value right-recursively through
`parseAssignment` itself, then require the lhs to be a `VariableNode`,
failing "Invalid assignment target" otherwise. -/
def parseAssignmentF : Nat → List PToken → Except String (PAst × List PToken)
  | 0, _ => .error "recursion limit"
  | fuel + 1, ts =>
    match parseLogicalOrF fuel ts with
    | .error e => .error e
    | .ok (expr, ts1) =>
      match pMatch .ASSIGN ts1 with
      | some ts2 =>
        match parseAssignmentF fuel ts2 with
        | .error e => .error e
        | .ok (value, ts3) =>
          match expr with
          | .VariableNode nm => .ok (.AssignmentNode nm value, ts3)
          | _ => .error "Invalid assignment target"
      | none => .ok (expr, ts1)

def parseLogicalOrF : Nat → List PToken → Except String (PAst × List PToken)
  | 0, _ => .error "recursion limit"
  | fuel + 1, ts =>
    match parseLogicalAndF fuel ts with
    | .error e => .error e
    | .ok (expr, ts1) => parseLogicalOrLoopF fuel expr ts1

def parseLogicalOrLoopF : Nat → PAst → List PToken → Except String (PAst × List PToken)
  | 0, _, _ => .error "recursion limit"
  | fuel + 1, expr, ts =>
    match pMatch .OR ts with
    | some ts1 =>
      match parseLogicalAndF fuel ts1 with
      | .error e => .error e
      | .ok (r, ts2) => parseLogicalOrLoopF fuel (.BinaryOpNode expr .OR r) ts2
    | none => .ok (expr, ts)

def parseLogicalAndF : Nat → List PToken → Except String (PAst × List PToken)
  | 0, _ => .error "recursion limit"
  | fuel + 1, ts =>
    match parseEqualityF fuel ts with
    | .error e => .error e
    | .ok (expr, ts1) => parseLogicalAndLoopF fuel expr ts1

def parseLogicalAndLoopF : Nat → PAst → List PToken → Except String (PAst × List PToken)
  | 0, _, _ => .error "recursion limit"
  | fuel + 1, expr, ts =>
    match pMatch .AND ts with
    | some ts1 =>
      match parseEqualityF fuel ts1 with
      | .error e => .error e
      | .ok (r, ts2) => parseLogicalAndLoopF fuel (.BinaryOpNode expr .AND r) ts2
    | none => .ok (expr, ts)

def parseEqualityF : Nat → List PToken → Except String (PAst × List PToken)
  | 0, _ => .error "recursion limit"
  | fuel + 1, ts =>
    match parseRelationalF fuel ts with
    | .error e => .error e
    | .ok (expr, ts1) => parseEqualityLoopF fuel expr ts1

def parseEqualityLoopF : Nat → PAst → List PToken → Except String (PAst × List PToken)
  | 0, _, _ => .error "recursion limit"
  | fuel + 1, expr, ts =>
    match pMatch .EQUAL_EQUAL ts with
    | some ts1 =>
      match parseRelationalF fuel ts1 with
      | .error e => .error e
      | .ok (r, ts2) => parseEqualityLoopF fuel (.BinaryOpNode expr .EQUAL_EQUAL r) ts2
    | none =>
      match pMatch .NOT_EQUAL ts with
      | some ts1 =>
        match parseRelationalF fuel ts1 with
        | .error e => .error e
        | .ok (r, ts2) => parseEqualityLoopF fuel (.BinaryOpNode expr .NOT_EQUAL r) ts2
      | none => .ok (expr, ts)

def parseRelationalF : Nat → List PToken → Except String (PAst × List PToken)
  | 0, _ => .error "recursion limit"
  | fuel + 1, ts =>
    match parseAdditiveF fuel ts with
    | .error e => .error e
    | .ok (expr, ts1) => parseRelationalLoopF fuel expr ts1

def parseRelationalLoopF : Nat → PAst → List PToken → Except String (PAst × List PToken)
  | 0, _, _ => .error "recursion limit"
  | fuel + 1, expr, ts =>
    match pMatch .LESS ts with
    | some ts1 =>
      match parseAdditiveF fuel ts1 with
      | .error e => .error e
      | .ok (r, ts2) => parseRelationalLoopF fuel (.BinaryOpNode expr .LESS r) ts2
    | none =>
      match pMatch .LESS_EQUAL ts with
      | some ts1 =>
        match parseAdditiveF fuel ts1 with
        | .error e => .error e
        | .ok (r, ts2) => parseRelationalLoopF fuel (.BinaryOpNode expr .LESS_EQUAL r) ts2
      | none =>
        match pMatch .GREATER ts with
        | some ts1 =>
          match parseAdditiveF fuel ts1 with
          | .error e => .error e
          | .ok (r, ts2) => parseRelationalLoopF fuel (.BinaryOpNode expr .GREATER r) ts2
        | none =>
          match pMatch .GREATER_EQUAL ts with
          | some ts1 =>
            match parseAdditiveF fuel ts1 with
            | .error e => .error e
            | .ok (r, ts2) =>
              parseRelationalLoopF fuel (.BinaryOpNode expr .GREATER_EQUAL r) ts2
          | none => .ok (expr, ts)

def parseAdditiveF : Nat → List PToken → Except String (PAst × List PToken)
  | 0, _ => .error "recursion limit"
  | fuel + 1, ts =>
    match parseMultiplicativeF fuel ts with
    | .error e => .error e
    | .ok (expr, ts1) => parseAdditiveLoopF fuel expr ts1

def parseAdditiveLoopF : Nat → PAst → List PToken → Except String (PAst × List PToken)
  | 0, _, _ => .error "recursion limit"
  | fuel + 1, expr, ts =>
    match pMatch .PLUS ts with
    | some ts1 =>
      match parseMultiplicativeF fuel ts1 with
      | .error e => .error e
      | .ok (r, ts2) => parseAdditiveLoopF fuel (.BinaryOpNode expr .PLUS r) ts2
    | none =>
      match pMatch .MINUS ts with
      | some ts1 =>
        match parseMultiplicativeF fuel ts1 with
        | .error e => .error e
        | .ok (r, ts2) => parseAdditiveLoopF fuel (.BinaryOpNode expr .MINUS r) ts2
      | none => .ok (expr, ts)

def parseMultiplicativeF : Nat → List PToken → Except String (PAst × List PToken)
  | 0, _ => .error "recursion limit"
  | fuel + 1, ts =>
    match parseUnaryF fuel ts with
    | .error e => .error e
    | .ok (expr, ts1) => parseMultiplicativeLoopF fuel expr ts1

def parseMultiplicativeLoopF : Nat → PAst → List PToken →
    Except String (PAst × List PToken)
  | 0, _, _ => .error "recursion limit"
  | fuel + 1, expr, ts =>
    match pMatch .MULTIPLY ts with
    | some ts1 =>
      match parseUnaryF fuel ts1 with
      | .error e => .error e
      | .ok (r, ts2) => parseMultiplicativeLoopF fuel (.BinaryOpNode expr .MULTIPLY r) ts2
    | none =>
      match pMatch .DIVIDE ts with
      | some ts1 =>
        match parseUnaryF fuel ts1 with
        | .error e => .error e
        | .ok (r, ts2) => parseMultiplicativeLoopF fuel (.BinaryOpNode expr .DIVIDE r) ts2
      | none =>
        match pMatch .MODULO ts with
        | some ts1 =>
          match parseUnaryF fuel ts1 with
          | .error e => .error e
          | .ok (r, ts2) => parseMultiplicativeLoopF fuel (.BinaryOpNode expr .MODULO r) ts2
        | none => .ok (expr, ts)

def parseUnaryF : Nat → List PToken → Except String (PAst × List PToken)
  | 0, _ => .error "recursion limit"
  | fuel + 1, ts =>
    match pMatch .NOT ts with
    | some ts1 =>
      match parseUnaryF fuel ts1 with
      | .error e => .error e
      | .ok (e, ts2) => .ok (.UnaryOpNode .NOT e, ts2)
    | none =>
      match pMatch .MINUS ts with
      | some ts1 =>
        match parseUnaryF fuel ts1 with
        | .error e => .error e
        | .ok (e, ts2) => .ok (.UnaryOpNode .MINUS e, ts2)
      | none => parsePostfixF fuel ts

def parsePostfixF : Nat → List PToken → Except String (PAst × List PToken)
  | 0, _ => .error "recursion limit"
  | fuel + 1, ts =>
    match parsePrimaryF fuel ts with
    | .error e => .error e
    | .ok (expr, ts1) => parsePostfixLoopF fuel expr ts1

def parsePostfixLoopF : Nat → PAst → List PToken → Except String (PAst × List PToken)
  | 0, _, _ => .error "recursion limit"
  | fuel + 1, expr, ts =>
    match pMatch .LEFT_PAREN ts with
    | some ts1 =>
      match (if pCheck .RIGHT_PAREN ts1 then .ok ([], ts1)
             else parseExprListF fuel ts1 :
             Except String (List PAst × List PToken)) with
      | .error e => .error e
      | .ok (args, ts2) =>
        match pConsume .RIGHT_PAREN "Expected ')' after arguments" ts2 with
        | .error e => .error e
        | .ok (_, ts3) => parsePostfixLoopF fuel (.CallNode expr args) ts3
    | none =>
      match pMatch .LEFT_BRACKET ts with
      | some ts1 =>
        match parseExpressionF fuel ts1 with
        | .error e => .error e
        | .ok (idx, ts2) =>
          match pConsume .RIGHT_BRACKET "Expected ']' after array index" ts2 with
          | .error e => .error e
          | .ok (_, ts3) => parsePostfixLoopF fuel (.IndexNode expr idx) ts3
      | none => .ok (expr, ts)

/-- The `do { … } while (match(COMMA))` loops collecting call arguments and
array elements. -/
def parseExprListF : Nat → List PToken → Except String (List PAst × List PToken)
  | 0, _ => .error "recursion limit"
  | fuel + 1, ts =>
    match parseExpressionF fuel ts with
    | .error e => .error e
    | .ok (e, ts1) => parseExprListLoopF fuel [e] ts1

def parseExprListLoopF : Nat → List PAst → List PToken →
    Except String (List PAst × List PToken)
  | 0, _, _ => .error "recursion limit"
  | fuel + 1, acc, ts =>
    match pMatch .COMMA ts with
    | some ts1 =>
      match parseExpressionF fuel ts1 with
      | .error e => .error e
      | .ok (e, ts2) => parseExprListLoopF fuel (acc ++ [e]) ts2
    | none => .ok (acc, ts)

def parsePrimaryF : Nat → List PToken → Except String (PAst × List PToken)
  | 0, _ => .error "recursion limit"
  | fuel + 1, ts =>
    match pMatch .NUMBER ts with
    | some ts1 => .ok (.NumberNode (pPeek ts).value, ts1)
    | none =>
      match pMatch .STRING ts with
      | some ts1 => .ok (.StringNode (pPeek ts).value, ts1)
      | none =>
        match pMatch .IDENTIFIER ts with
        | some ts1 => .ok (.VariableNode (pPeek ts).value, ts1)
        | none =>
          match pMatch .TRUE ts with
          | some ts1 => .ok (.BooleanNode true, ts1)
          | none =>
            match pMatch .FALSE ts with
            | some ts1 => .ok (.BooleanNode false, ts1)
            | none =>
              match pMatch .NULL_TOKEN ts with
              | some ts1 => .ok (.NullNode, ts1)
              | none =>
                match pMatch .LEFT_PAREN ts with
                | some ts1 =>
                  match parseExpressionF fuel ts1 with
                  | .error e => .error e
                  | .ok (e, ts2) =>
                    match pConsume .RIGHT_PAREN "Expected ')' after expression" ts2 with
                    | .error er => .error er
                    | .ok (_, ts3) => .ok (e, ts3)
                | none =>
                  match pMatch .LEFT_BRACKET ts with
                  | some ts1 =>
                    match (if pCheck .RIGHT_BRACKET ts1 then .ok ([], ts1)
                           else parseExprListF fuel ts1 :
                           Except String (List PAst × List PToken)) with
                    | .error e => .error e
                    | .ok (elems, ts2) =>
                      match pConsume .RIGHT_BRACKET
                          "Expected ']' after array elements" ts2 with
                      | .error e => .error e
                      | .ok (_, ts3) => .ok (.ArrayNode elems, ts3)
                  | none => .error ("Unexpected token: " ++ (pPeek ts).value)

end

end RParse

open RParse in
/-- C8: in `Parser::parseAssignment`, once the lhs has been parsed at the
logical-or level and an `ASSIGN` token follows, the value is parsed
right-recursively through `parseAssignment` itself, and the whole parse
produces an `AssignmentNode` exactly when the lhs is a `VariableNode`; any
other lhs fails with "Invalid assignment target". -/
theorem claim_C8_invalid_assignment_target (fuel : Nat)
    (ts ts1 rest : List PToken) (lhs value : PAst) (t : PToken)
    (hlhs : parseLogicalOrF fuel ts = .ok (lhs, t :: ts1))
    (ht : t.type = .ASSIGN)
    (hval : parseAssignmentF fuel ts1 = .ok (value, rest)) :
    parseAssignmentF (fuel + 1) ts =
      match lhs with
      | .VariableNode nm => .ok (.AssignmentNode nm value, rest)
      | _ => .error "Invalid assignment target" := by
  have hm : pMatch .ASSIGN (t :: ts1) = some ts1 := by
    simp [pMatch, pCheck, pIsAtEnd, pPeek, ht]
  cases lhs <;>
    (simp only [parseAssignmentF]; rw [hlhs]; dsimp only; rw [hm]; dsimp only;
      rw [hval])

/-- `x = y = 1` parses as `x = (y = 1)`, and `2 = 1` fails with
"Invalid assignment target". -/
theorem claim_C8_witness :
    (RParse.parseAssignmentF 20
        [⟨.IDENTIFIER, "x", 1⟩, ⟨.ASSIGN, "=", 1⟩, ⟨.IDENTIFIER, "y", 1⟩,
         ⟨.ASSIGN, "=", 1⟩, ⟨.NUMBER, "1", 1⟩, ⟨.END_OF_FILE, "", 1⟩] =
      .ok (.AssignmentNode "x" (.AssignmentNode "y" (.NumberNode "1")),
        [⟨.END_OF_FILE, "", 1⟩])) ∧
    (RParse.parseAssignmentF 20
        [⟨.NUMBER, "2", 1⟩, ⟨.ASSIGN, "=", 1⟩, ⟨.NUMBER, "1", 1⟩,
         ⟨.END_OF_FILE, "", 1⟩] =
      .error "Invalid assignment target") := by
  constructor
  · exact claim_C8_invalid_assignment_target 19
      [⟨.IDENTIFIER, "x", 1⟩, ⟨.ASSIGN, "=", 1⟩, ⟨.IDENTIFIER, "y", 1⟩,
       ⟨.ASSIGN, "=", 1⟩, ⟨.NUMBER, "1", 1⟩, ⟨.END_OF_FILE, "", 1⟩]
      [⟨.IDENTIFIER, "y", 1⟩, ⟨.ASSIGN, "=", 1⟩, ⟨.NUMBER, "1", 1⟩,
       ⟨.END_OF_FILE, "", 1⟩]
      [⟨.END_OF_FILE, "", 1⟩]
      (.VariableNode "x") (.AssignmentNode "y" (.NumberNode "1"))
      ⟨.ASSIGN, "=", 1⟩ rfl rfl rfl
  · exact claim_C8_invalid_assignment_target 19
      [⟨.NUMBER, "2", 1⟩, ⟨.ASSIGN, "=", 1⟩, ⟨.NUMBER, "1", 1⟩,
       ⟨.END_OF_FILE, "", 1⟩]
      [⟨.NUMBER, "1", 1⟩, ⟨.END_OF_FILE, "", 1⟩]
      [⟨.END_OF_FILE, "", 1⟩]
      (.NumberNode "2") (.NumberNode "1")
      ⟨.ASSIGN, "=", 1⟩ rfl rfl rfl

open RLex in
/-- C9: lexing is total — `tokenize` is a terminating function on all inputs —
and for every input the token list is non-empty, ends in the unique
`END_OF_FILE` token, and a byte matching no token rule (no single-character
token, no operator family, not a string/character quote, not a digit, not an
identifier start) yields an `ERROR` token holding exactly that byte while the
cursor advances one position, after which the loop continues. -/
theorem claim_C9_lexing_total_eof_error (src : List Char) (s : LexPos) :
    (tokenize src ≠ [] ∧
     (∃ t, (tokenize src).getLast? = some t ∧ t.type = .END_OF_FILE) ∧
     (tokenize src).countP (fun tk => tk.type == .END_OF_FILE) = 1) ∧
    (s.pos < src.length →
     singleCharLookup (charAt src s.pos) = none →
     twoCharRule (charAt src s.pos) = none →
     charAt src s.pos ≠ quoteChar →
     charAt src s.pos ≠ squoteChar →
     isDigitChar (charAt src s.pos) = false →
     (isAlphaChar (charAt src s.pos) || charAt src s.pos = '_') = false →
     nextTokenAt src s =
       (⟨.ERROR, [charAt src s.pos], s.line, s.column⟩, advance src s) ∧
     (advance src s).pos = s.pos + 1) := by
  constructor
  · obtain ⟨t, hlast, htype, hcount⟩ := tokenizeLoop_eof_structure src ⟨0, 1, 1⟩
    refine ⟨?_, ⟨t, hlast, htype⟩, hcount⟩
    intro hnil
    rw [tokenize] at hnil
    rw [hnil] at hlast
    simp at hlast
  · intro hlt h1 h2 hq hsq hd ha
    refine ⟨?_, advance_pos_of_lt src s hlt⟩
    unfold nextTokenAt
    rw [if_neg (by omega), h1, h2]
    dsimp only
    rw [if_neg hq, if_neg hsq, if_neg (by simp [hd]), if_neg (by simp [ha])]

open RLex in
/-- On the one-byte input `#` (which matches no token rule), the token list is
the `ERROR` token for `#` followed by `END_OF_FILE`, and `nextTokenAt` at the
start state emits that `ERROR` token and advances one byte. -/
theorem claim_C9_witness :
    (tokenize ['#'] ≠ [] ∧
     (∃ t, (tokenize ['#']).getLast? = some t ∧ t.type = .END_OF_FILE) ∧
     (tokenize ['#']).countP (fun tk => tk.type == .END_OF_FILE) = 1) ∧
    (nextTokenAt ['#'] ⟨0, 1, 1⟩ =
       (⟨.ERROR, [charAt ['#'] 0], 1, 1⟩, advance ['#'] ⟨0, 1, 1⟩) ∧
     (advance ['#'] ⟨0, 1, 1⟩).pos = 0 + 1) := by
  have h := claim_C9_lexing_total_eof_error ['#'] ⟨0, 1, 1⟩
  exact ⟨h.1, h.2 (by decide) rfl rfl (by decide) (by decide) rfl rfl⟩

namespace RLex

theorem advance_pos_of_ge (src : List Char) (s : LexPos) (h : src.length ≤ s.pos) :
    (advance src s).pos = s.pos := by
  unfold advance
  rw [if_neg (by omega)]

/-- If no `*/` occurs at or after position `n`, the block-comment loop runs to
the end of the source. -/
theorem skipBlockComment_no_close (src : List Char) (n : Nat) (s : LexPos)
    (hnc : ∀ i, n ≤ i → ¬(charAt src i = '*' ∧ charAt src (i + 1) = '/')) :
    n ≤ s.pos ∨ src.length ≤ s.pos → src.length ≤ (skipBlockComment src s).pos := by
  induction s using skipBlockComment.induct src with
  | case1 s h hc =>
    intro hn
    have hn' : n ≤ s.pos := by rcases hn with hn | hn <;> omega
    exact absurd ⟨hc.1, hc.2⟩ (hnc s.pos hn')
  | case2 s h hc ih =>
    intro hn
    rw [skipBlockComment, dif_pos h, if_neg hc]
    apply ih
    have := advance_pos_ge src s
    left
    rcases hn with hn | hn <;> omega
  | case3 s h =>
    intro hn
    rw [skipBlockComment, dif_neg h]
    omega

end RLex

open RLex in
/-- C10: a `/*` comment never closed before the end of the input is silently
consumed: from the opening state the token loop emits exactly one token, the
`END_OF_FILE` token with an empty lexeme — no `ERROR` token and no token from
the commented-out text. -/
theorem claim_C10_unterminated_block_comment (src : List Char) (s : LexPos)
    (hlt : s.pos < src.length)
    (hslash : charAt src s.pos = '/')
    (hstar : peek src s = '*')
    (hnc : ∀ i, s.pos + 2 ≤ i → ¬(charAt src i = '*' ∧ charAt src (i + 1) = '/')) :
    ∃ t, tokenizeLoop src s = [t] ∧ t.type = .END_OF_FILE ∧ t.value = [] := by
  have h1 : (advance src s).pos = s.pos + 1 := advance_pos_of_lt src s hlt
  have hb : src.length ≤ (skipBlockComment src (advance src (advance src s))).pos := by
    apply skipBlockComment_no_close src (s.pos + 2) _ hnc
    by_cases h2 : (advance src s).pos < src.length
    · left
      rw [advance_pos_of_lt src (advance src s) h2, h1]
    · right
      rw [advance_pos_of_ge src (advance src s) (by omega)]
      omega
  have hskip : src.length ≤ (skipWhitespaceAndComments src s).pos := by
    rw [skipWhitespaceAndComments, dif_pos hlt,
        if_neg (by rw [hslash]; decide),
        if_neg (by simp [hstar]),
        if_pos ⟨hslash, hstar⟩]
    rw [skipWhitespaceAndComments, dif_neg (by omega)]
    exact hb
  have heof : nextToken src s =
      (⟨.END_OF_FILE, [], (skipWhitespaceAndComments src s).line,
        (skipWhitespaceAndComments src s).column⟩, skipWhitespaceAndComments src s) := by
    unfold nextToken nextTokenAt
    rw [if_pos hskip]
  refine ⟨⟨.END_OF_FILE, [], (skipWhitespaceAndComments src s).line,
    (skipWhitespaceAndComments src s).column⟩, ?_, rfl, rfl⟩
  rw [tokenizeLoop, heof]
  rfl

open RLex in
/-- On `/* x` (opened, never closed) the whole input lexes to just the
`END_OF_FILE` token. -/
theorem claim_C10_witness :
    ∃ t, tokenizeLoop ['/', '*', ' ', 'x'] ⟨0, 1, 1⟩ = [t] ∧
      t.type = .END_OF_FILE ∧ t.value = [] := by
  apply claim_C10_unterminated_block_comment ['/', '*', ' ', 'x'] ⟨0, 1, 1⟩
    (by decide) rfl rfl
  intro i hi hcc
  obtain ⟨hc1, _⟩ := hcc
  by_cases h4 : i < 4
  · interval_cases i
    · exact absurd hc1 (by decide)
    · exact absurd hc1 (by decide)
  · have hdef : charAt ['/', '*', ' ', 'x'] i = nulChar := by
      unfold charAt
      exact List.getD_eq_default _ _ (by omega : 4 ≤ i)
    rw [hdef] at hc1
    exact absurd hc1 (by decide)

namespace RLex

theorem scanString_token_pos (src : List Char) (s : LexPos) :
    (scanString src s).1.line = s.line ∧ (scanString src s).1.column = s.column := by
  unfold scanString
  split
  next value s2 heq => split <;> exact ⟨rfl, rfl⟩

theorem scanCharacter_token_pos (src : List Char) (s : LexPos) :
    (scanCharacter src s).1.line = s.line ∧ (scanCharacter src s).1.column = s.column := by
  unfold scanCharacter
  split
  next value s2 heq => exact ⟨rfl, rfl⟩

theorem scanNumber_token_pos (src : List Char) (s : LexPos) :
    (scanNumber src s).1.line = s.line ∧ (scanNumber src s).1.column = s.column := by
  unfold scanNumber
  split
  · split
    next value s2 heq => exact ⟨rfl, rfl⟩
  · split
    next v1 s1 heq =>
      split
      · split
        next v2 s2 heq2 =>
          split
          · split
            next v3 s3 heq3 => exact ⟨rfl, rfl⟩
          · exact ⟨rfl, rfl⟩
      · exact ⟨rfl, rfl⟩

theorem scanIdentifier_token_pos (src : List Char) (s : LexPos) :
    (scanIdentifier src s).1.line = s.line ∧
      (scanIdentifier src s).1.column = s.column := by
  unfold scanIdentifier
  split
  next value s1 heq => split <;> exact ⟨rfl, rfl⟩

/-- Operator-family first characters are never a newline, so the `advance()`
before `makeToken` in the two-character branches stays on the same line and
moves one column right. -/
theorem twoCharRule_first_not_newline (c : Char)
    (rule : List (Char × TokenType) × TokenType)
    (h : twoCharRule c = some rule) : c ≠ Char.ofNat 10 := by
  unfold twoCharRule at h
  cases hf : opRuleTable.find? (fun p => c = p.1) with
  | none => rw [hf] at h; simp at h
  | some a =>
    have hpred := List.find?_some hf
    simp only [decide_eq_true_eq] at hpred
    have hmem := List.mem_of_find?_eq_some hf
    rw [hpred]
    fin_cases hmem <;> decide

end RLex

open RLex in
/-- C6 counterexample: on the two-byte input `==` the single emitted operator
token's lexeme starts at line 1, column 1, yet the token carries column 2,
because the two-character branches of `Lexer::nextToken` call `advance()`
before `makeToken` and `makeToken` stamps the then-current position. -/
theorem claim_C6_counterexample :
    tokenize ['=', '='] =
      [⟨.EQUAL_EQUAL, ['=', '='], 1, 2⟩, ⟨.END_OF_FILE, [], 1, 3⟩] := by
  simp [tokenize, tokenizeLoop, nextToken, nextTokenAt, skipWhitespaceAndComments,
        isSpaceChar, charAt, peek, advance, singleCharLookup, singleCharTable,
        twoCharRule, opRuleTable, applyOpRule, makeToken, lbraceChar, rbraceChar,
        List.find?]

open RLex in
/-- C6 (amended): at any in-range dispatch state, the emitted token's
`(line, column)` is the position of the character under the cursor — the first
character of the lexeme — in the single-character, scanner, and error
branches; but in a two-character operator branch the token carries the
position after one `advance`, i.e. the same line and one column further: the
second character of the lexeme, not the first. -/
theorem claim_C6_token_position (src : List Char) (s : LexPos)
    (h : s.pos < src.length) :
    (∀ ty, singleCharLookup (charAt src s.pos) = some ty →
      (nextTokenAt src s).1.line = s.line ∧ (nextTokenAt src s).1.column = s.column) ∧
    (∀ rule p, singleCharLookup (charAt src s.pos) = none →
      twoCharRule (charAt src s.pos) = some rule →
      rule.1.find? (fun q => peek src s = q.1) = some p →
      ((nextTokenAt src s).1.line = (advance src s).line ∧
       (nextTokenAt src s).1.column = (advance src s).column) ∧
      ((advance src s).line = s.line ∧ (advance src s).column = s.column + 1)) ∧
    (∀ rule, singleCharLookup (charAt src s.pos) = none →
      twoCharRule (charAt src s.pos) = some rule →
      rule.1.find? (fun q => peek src s = q.1) = none →
      (nextTokenAt src s).1.line = s.line ∧ (nextTokenAt src s).1.column = s.column) ∧
    (singleCharLookup (charAt src s.pos) = none →
      twoCharRule (charAt src s.pos) = none →
      (nextTokenAt src s).1.line = s.line ∧ (nextTokenAt src s).1.column = s.column) := by
  refine ⟨?_, ?_, ?_, ?_⟩
  · intro ty hty
    unfold nextTokenAt
    rw [if_neg (by omega), hty]
    exact ⟨rfl, rfl⟩
  · intro rule p h1 h2 hp
    constructor
    · unfold nextTokenAt
      rw [if_neg (by omega), h1, h2]
      dsimp only
      unfold applyOpRule
      rw [hp]
      exact ⟨rfl, rfl⟩
    · have hne : charAt src s.pos ≠ Char.ofNat 10 :=
        twoCharRule_first_not_newline _ _ h2
      unfold advance
      rw [if_pos h, if_neg (by simpa using hne)]
      exact ⟨rfl, rfl⟩
  · intro rule h1 h2 hp
    unfold nextTokenAt
    rw [if_neg (by omega), h1, h2]
    dsimp only
    unfold applyOpRule
    rw [hp]
    exact ⟨rfl, rfl⟩
  · intro h1 h2
    unfold nextTokenAt
    rw [if_neg (by omega), h1, h2]
    dsimp only
    split_ifs with hq hsq hd ha
    · exact scanString_token_pos src s
    · exact scanCharacter_token_pos src s
    · exact scanNumber_token_pos src s
    · exact scanIdentifier_token_pos src s
    · exact ⟨rfl, rfl⟩

open RLex in
/-- On `==` the operator token is stamped with the advanced position:
line 1, column 2, while the cursor character sits at column 1. -/
theorem claim_C6_witness :
    ((nextTokenAt ['=', '='] ⟨0, 1, 1⟩).1.line = (advance ['=', '='] ⟨0, 1, 1⟩).line ∧
     (nextTokenAt ['=', '='] ⟨0, 1, 1⟩).1.column = (advance ['=', '='] ⟨0, 1, 1⟩).column) ∧
    ((advance ['=', '='] ⟨0, 1, 1⟩).line = 1 ∧
     (advance ['=', '='] ⟨0, 1, 1⟩).column = 1 + 1) := by
  have h := claim_C6_token_position ['=', '='] ⟨0, 1, 1⟩ (by decide)
  exact h.2.1 ([('=', .EQUAL_EQUAL)], .EQUAL) ('=', .EQUAL_EQUAL) rfl rfl rfl
